import Mathlib

/-!
# go-lookup: path lookups into Go values

A shallow embedding of `lookup.go` (package `lookup`): the segment parser
`parseIndex`, the single-step accessor `getValueByName`, the driver `Lookup`,
the aggregator `aggreateAggregableValue` and `mergeValue`.

The part of Go's `reflect` the package touches is modelled by the data type
`Value` below.  A Go call either returns or panics; `Run` records which.

Scope of the value model: booleans, ints and strings stand for the scalar
kinds (arrays, channels and functions are left out); struct values list their
exported, directly declared fields; the only interface type is `interface{}`;
every type is unnamed except struct types; `int` has 64 bits.
Strings are sequences of characters, positions inside a segment are counted in
characters (the two bracket characters are single bytes, so cutting a segment
at them gives the same pieces as cutting at byte offsets).
-/

namespace GoLookup

/-! ## Results of a Go call -/

/-- Result of running a Go function: it returns a value, or it panics. -/
inductive Run (α : Type) where
  | ret (a : α)
  | panic
  deriving Repr, DecidableEq

/-- The three error values the package declares. -/
inductive Error where
  | ErrMalformedIndex
  | ErrInvalidIndexUsage
  | ErrKeyNotFound
  deriving Repr, DecidableEq

/-! ## The fragment of `reflect` -/

/-- The kinds of `reflect.Kind` that the model distinguishes. -/
inductive Kind where
  | Invalid | Bool | Int | String | Struct | Map | Slice | Ptr | Interface
  deriving Repr, DecidableEq

/-- Go types (`reflect.Type`). -/
inductive Ty where
  | bool
  | int
  | string
  | strct (name : String)
  | map (key elem : Ty)
  | slice (elem : Ty)
  | ptr (elem : Ty)
  | iface
  deriving Repr, DecidableEq

/-- A `reflect.Value`.  `invalid` is the zero Value (what `reflect.ValueOf(nil)`
and a failed `FieldByName` or `MapIndex` give).  A nil pointer is `ptr t invalid`
and a nil interface is `iface invalid`, so that `Elem` of either is the zero
Value, as in Go.  Map entries are listed under their key string. -/
inductive Value where
  | invalid
  | bool (b : Bool)
  | int (n : Int)
  | str (s : String)
  | strct (name : String) (fields : List (String × Value))
  | map (key elem : Ty) (entries : List (String × Value))
  | slice (elem : Ty) (elems : List Value)
  | ptr (elem : Ty) (target : Value)
  | iface (dyn : Value)
  deriving Repr

/-- The method `Type.Kind`. -/
def Ty.Kind : Ty → Kind
  | .bool => .Bool
  | .int => .Int
  | .string => .String
  | .strct _ => .Struct
  | .map _ _ => .Map
  | .slice _ => .Slice
  | .ptr _ => .Ptr
  | .iface => .Interface

/-- The method `Type.Elem`: the element type of a map, slice or pointer type; it
panics on every other type. -/
def Ty.Elem : Ty → Run Ty
  | .map _ e => .ret e
  | .slice e => .ret e
  | .ptr e => .ret e
  | _ => .panic

/-- The method `Value.Kind`; the zero Value has kind `Invalid`. -/
def Value.Kind : Value → Kind
  | .invalid => .Invalid
  | .bool _ => .Bool
  | .int _ => .Int
  | .str _ => .String
  | .strct _ _ => .Struct
  | .map _ _ _ => .Map
  | .slice _ _ => .Slice
  | .ptr _ _ => .Ptr
  | .iface _ => .Interface

/-- The method `Value.IsValid`. -/
def Value.IsValid : Value → Bool
  | .invalid => false
  | _ => true

/-- The method `Value.Type`; it panics on the zero Value. -/
def Value.Type : Value → Run Ty
  | .invalid => .panic
  | .bool _ => .ret .bool
  | .int _ => .ret .int
  | .str _ => .ret .string
  | .strct name _ => .ret (.strct name)
  | .map k e _ => .ret (.map k e)
  | .slice e _ => .ret (.slice e)
  | .ptr e _ => .ret (.ptr e)
  | .iface _ => .ret .iface

/-- The method `Value.Elem`: the pointee of a pointer, the dynamic value of an
interface (the zero Value when nil); it panics on every other kind. -/
def Value.Elem : Value → Run Value
  | .ptr _ target => .ret target
  | .iface dyn => .ret dyn
  | _ => .panic

/-- The method `Value.FieldByName` on a struct value: the field of that name, or
the zero Value when there is none; it panics when the kind is not Struct. -/
def Value.FieldByName : Value → String → Run Value
  | .strct _ fields, name => .ret ((fields.lookup name).getD .invalid)
  | _, _ => .panic

/-- The lines `kValue := reflect.Indirect(reflect.New(v.Type().Key()))`,
`kValue.SetString(key)`, `v.MapIndex(kValue)` of `getValueByName`: `SetString`
panics unless the map's key type has kind String; `MapIndex` gives the entry
under the key, or the zero Value when there is none. -/
def Value.MapIndexString : Value → String → Run Value
  | .map k _ entries, key =>
    if k.Kind = .String then .ret ((entries.lookup key).getD .invalid) else .panic
  | _, _ => .panic

/-- The method `Value.Len` on the kinds `isAggregable` admits: the length of a
slice, the number of entries of a map; it panics on a struct (and on every
kind that has no length). -/
def Value.Len : Value → Run Nat
  | .slice _ elems => .ret elems.length
  | .map _ _ entries => .ret entries.length
  | _ => .panic

/-- The method `Value.Index`: the element of a slice at an index in range; it
panics when the index is out of range and when the value is a map or a
struct. -/
def Value.Index : Value → Int → Run Value
  | .slice _ elems, i =>
    if 0 ≤ i then
      match elems.get? i.toNat with
      | some e => .ret e
      | none => .panic
    else .panic
  | _, _ => .panic

/-- The method `Value.Interface` followed by `reflect.ValueOf`, as in
`Lookup(v.Index(i).Interface(), ...)`: a value of kind Interface hands out
its dynamic value (nil gives the zero Value), any other value comes back as
it is. -/
def Value.Interface : Value → Value
  | .iface dyn => dyn
  | v => v

mutual

/-- A value as Go can build it: the elements of a slice and the entries of a map
are valid values of the element type, the fields of a struct are valid and
their names distinct, as are the keys of a map, a pointer is nil or points to
a value of its element type, an interface is nil or holds a value that is not
itself of kind Interface. -/
def Value.WellTyped : Value → Bool
  | .invalid => false
  | .bool _ => true
  | .int _ => true
  | .str _ => true
  | .strct _ fields => WellTypedFields fields
  | .map _ et entries => WellTypedEntries et entries
  | .slice et elems => WellTypedElems et elems
  | .ptr et target => !target.IsValid || (target.WellTyped && decide (target.Type = .ret et))
  | .iface dyn => !dyn.IsValid || (dyn.WellTyped && decide (dyn.Kind ≠ .Interface))

/-- The fields of a struct are well typed and their names distinct. -/
def WellTypedFields : List (String × Value) → Bool
  | [] => true
  | (name, v) :: rest =>
    v.WellTyped && rest.all (fun f => f.1 != name) && WellTypedFields rest

/-- The entries of a map are well typed values of its element type and their
keys distinct. -/
def WellTypedEntries (et : Ty) : List (String × Value) → Bool
  | [] => true
  | (key, v) :: rest =>
    v.WellTyped && decide (v.Type = .ret et) && rest.all (fun f => f.1 != key) &&
      WellTypedEntries et rest

/-- The elements of a slice are well typed values of its element type. -/
def WellTypedElems (et : Ty) : List Value → Bool
  | [] => true
  | v :: rest => v.WellTyped && decide (v.Type = .ret et) && WellTypedElems et rest

end

/-! ## Strings -/

/-- The function `strings.Index(s, sep)` for a one-character separator: the
position of its first occurrence in `s`, or `-1`. -/
def stringsIndex (s : List Char) (sep : Char) : Int :=
  if sep ∈ s then (s.indexOf sep : Nat) else -1

/-- The slice expression `s[lo:hi]` on a string; it panics unless
`0 ≤ lo ≤ hi ≤ len(s)`. -/
def sliceString (s : List Char) (lo hi : Int) : Run (List Char) :=
  if 0 ≤ lo ∧ lo ≤ hi ∧ hi ≤ (s.length : Nat) then
    .ret ((s.take hi.toNat).drop lo.toNat)
  else .panic

/-- Largest value of Go's `int` (64 bits). -/
def maxInt : Nat := 2 ^ 63 - 1

/-- The value of a run of decimal digits. -/
def digitsValue (ds : List Char) : Nat :=
  ds.foldl (fun acc c => 10 * acc + (c.toNat - 48)) 0

/-- The function `strconv.Atoi`: an optional sign `+` or `-`, then one or more
decimal digits, the value within the range of `int`; `none` stands for the
returned error (syntax or range). -/
def Atoi (s : List Char) : Option Int :=
  let neg := s.head? = some '-'
  let ds := if s.head? = some '-' ∨ s.head? = some '+' then s.tail else s
  if ds = [] ∨ ¬ (ds.all Char.isDigit = true) then none
  else if neg then
    (if digitsValue ds ≤ maxInt + 1 then some (-(digitsValue ds : Int)) else none)
  else
    (if digitsValue ds ≤ maxInt then some (digitsValue ds : Int) else none)

/-! ## The package -/

/-- The constant `IndexOpenChar`. -/
def IndexOpenChar : Char := '['

/-- The constant `IndexCloseChar`. -/
def IndexCloseChar : Char := ']'

/-- The constant `SplitToken`. -/
def SplitToken : Char := '.'

/-- The function `hasIndex`. -/
def hasIndex (s : String) : Bool :=
  stringsIndex s.data IndexOpenChar != -1

/-- The function `parseIndex`: `(key, index, err)`.  The slice expression
`s[start+1 : end]` panics when the first `]` stands before the first `[`. -/
def parseIndex (s : String) : Run (String × Int × Option Error) :=
  let start := stringsIndex s.data IndexOpenChar
  let end_ := stringsIndex s.data IndexCloseChar
  if start = -1 ∧ end_ = -1 then
    .ret (s, -1, none)
  else if (start ≠ -1 ∧ end_ = -1) ∨ (start = -1 ∧ end_ ≠ -1) then
    .ret ("", -1, some .ErrMalformedIndex)
  else
    match sliceString s.data (start + 1) end_ with
    | .panic => .panic
    | .ret digits =>
      match Atoi digits with
      | none => .ret ("", -1, some .ErrMalformedIndex)
      | some index =>
        match sliceString s.data 0 start with
        | .panic => .panic
        | .ret key => .ret (String.mk key, index, none)

/-- Lines 82 to 98 of `getValueByName`: the located `value` is checked, the
index selector (if any) is applied, and one pointer or interface level is
removed. -/
def getValueByName.located (value : Value) (index : Int) : Run (Value × Option Error) :=
  if !value.IsValid then
    .ret (.invalid, some .ErrKeyNotFound)
  else
    let indexed : Run (Value × Option Error) :=
      if index ≠ -1 then
        match value.Type with
        | .panic => .panic
        | .ret t =>
          if t.Kind ≠ .Slice then .ret (.invalid, some .ErrInvalidIndexUsage)
          else
            match value.Index index with
            | .panic => .panic
            | .ret e => .ret (e, none)
      else .ret (value, none)
    match indexed with
    | .panic => .panic
    | .ret (value, some err) => .ret (value, some err)
    | .ret (value, none) =>
      if value.Kind = .Ptr ∨ value.Kind = .Interface then
        match value.Elem with
        | .panic => .panic
        | .ret e => .ret (e, none)
      else .ret (value, none)

/-- The function `getValueByName`.  On a pointer or an interface it calls itself
on `v.Elem()` with the key that `parseIndex` returned, that is, without the
index selector. -/
def getValueByName (v : Value) (key : String) : Run (Value × Option Error) :=
  match parseIndex key with
  | .panic => .panic
  | .ret (_, _, some err) => .ret (.invalid, some err)
  | .ret (key, index, none) =>
    match v with
    | .ptr _ target => getValueByName target key
    | .iface dyn => getValueByName dyn key
    | .strct name fields =>
      match (Value.strct name fields).FieldByName key with
      | .panic => .panic
      | .ret value => getValueByName.located value index
    | .map k e entries =>
      match (Value.map k e entries).MapIndexString key with
      | .panic => .panic
      | .ret value => getValueByName.located value index
    | _ => getValueByName.located .invalid index

/-- The function `isAggregable`. -/
def isAggregable (v : Value) : Bool :=
  let k := v.Kind
  k = .Struct || k = .Map || k = .Slice

/-- The function `isMergeable`. -/
def isMergeable (v : Value) : Bool :=
  let k := v.Kind
  k = .Map || k = .Slice

/-- The function `removeZeroValues`. -/
def removeZeroValues (values : List Value) : List Value :=
  values.filter Value.IsValid

/-- The function `reflect.Append(s, x)` with one value `x`: `s` must be a slice
and `x` assignable to its element type, which here means that the types are
identical or the element type is `interface{}` (the element then holds `x` as
its dynamic value); otherwise it panics. -/
def reflectAppend (s x : Value) : Run Value :=
  match s with
  | .slice t elems =>
    match x.Type with
    | .panic => .panic
    | .ret tx =>
      if tx = t then .ret (.slice t (elems ++ [x]))
      else if t = .iface then .ret (.slice t (elems ++ [.iface x]))
      else .panic
  | _ => .panic

/-- The function `reflect.AppendSlice(s, t)`: both must be slices of the same
element type; otherwise it panics. -/
def reflectAppendSlice (s t : Value) : Run Value :=
  match s, t with
  | .slice ts elems, .slice tt more =>
    if ts = tt then .ret (.slice ts (elems ++ more)) else .panic
  | _, _ => .panic

/-- The loop of `mergeValue` (lines 136 to 146) over the values still to be
appended, `value` being the slice built so far. -/
def mergeValue.loop (mergeable : Bool) (value : Value) : List Value → Run Value
  | [] => .ret value
  | x :: rest =>
    if !x.IsValid then mergeValue.loop mergeable value rest
    else
      match (if mergeable then reflectAppendSlice value x else reflectAppend value x) with
      | .panic => .panic
      | .ret value => mergeValue.loop mergeable value rest

/-- The function `mergeValue`. -/
def mergeValue (values : List Value) : Run Value :=
  let values := removeZeroValues values
  match values with
  | [] => .ret .invalid
  | sample :: _ =>
    let mergeable := isMergeable sample
    match sample.Type with
    | .panic => .panic
    | .ret t =>
      match (if mergeable then t.Elem else .ret t) with
      | .panic => .panic
      | .ret t => mergeValue.loop mergeable (.slice t []) values

mutual

/-- The function `Lookup`.  The argument `i` is the dynamic value held by the
`interface{}` parameter, which `reflect.ValueOf` returns as it is (the zero
Value for nil).  Each round of the `for` loop is one unfolding: on success of
`getValueByName` the loop continues on the new value with the rest of the
path; on failure it stops, after the aggregator has run on the parent (the
value before the step) and the path from the failing segment on when the
parent is aggregable. -/
def Lookup (i : Value) (path : List String) : Run (Value × Option Error) :=
  match path with
  | [] => .ret (i, none)
  | part :: rest =>
    match getValueByName i part with
    | .panic => .panic
    | .ret (value, none) => Lookup value rest
    | .ret (value, some err) =>
      if !isAggregable i then .ret (value, some err)
      else aggreateAggregableValue i (part :: rest)
termination_by (path.length, sizeOf i, 2, 0)
decreasing_by
  · exact Prod.Lex.left _ _ (Nat.lt_succ_self _)
  · exact Prod.Lex.right _ (Prod.Lex.right _ (Prod.Lex.left _ _ (by decide)))

/-- The function `aggreateAggregableValue`. -/
def aggreateAggregableValue (v : Value) (path : List String) : Run (Value × Option Error) :=
  match v.Len with
  | .panic => .panic
  | .ret l => aggreateAggregableValue.loop v path l 0 []
termination_by (path.length, sizeOf v, 1, 0)
decreasing_by
  exact Prod.Lex.right _ (Prod.Lex.right _ (Prod.Lex.left _ _ (by decide)))

/-- The `for` loop of `aggreateAggregableValue` from index `i` on, `values`
being the results collected so far. -/
def aggreateAggregableValue.loop (v : Value) (path : List String) (l i : Nat)
    (values : List Value) : Run (Value × Option Error) :=
  if i < l then
    match _hidx : v.Index i with
    | .panic => .panic
    | .ret e =>
      match Lookup e.Interface path with
      | .panic => .panic
      | .ret (_, some err) => .ret (.invalid, some err)
      | .ret (value, none) => aggreateAggregableValue.loop v path l (i + 1) (values ++ [value])
  else
    match mergeValue values with
    | .panic => .panic
    | .ret merged => .ret (merged, none)
termination_by (path.length, sizeOf v, 0, l - i)
decreasing_by
  · apply Prod.Lex.right
    apply Prod.Lex.left
    have hle : sizeOf e.Interface ≤ sizeOf e := by
      cases e <;> simp [Value.Interface]
    cases v <;> simp [Value.Index] at _hidx
    split at _hidx
    · rename_i t elems _ x hx
      cases _hidx
      have hlt := List.sizeOf_lt_of_mem (List.getElem?_mem hx)
      simp only [Value.slice.sizeOf_spec]
      omega
    · cases _hidx
  · exact Prod.Lex.right _ (Prod.Lex.right _ (Prod.Lex.right _ (by omega)))

end

/-- The function `strings.Split(s, sep)` for a one-character separator, `cur`
being the piece read so far (in reverse). -/
def stringsSplit (sep : Char) (cur : List Char) : List Char → List String
  | [] => [String.mk cur.reverse]
  | c :: rest =>
    if c = sep then String.mk cur.reverse :: stringsSplit sep [] rest
    else stringsSplit sep (c :: cur) rest

/-- The function `LookupString`. -/
def LookupString (i : Value) (path : String) : Run (Value × Option Error) :=
  Lookup i (stringsSplit SplitToken [] path.data)

/-! ## Vocabulary of the statements -/

/-- A string without bracket characters, as every Go field name is. -/
def NoBracket (s : String) : Prop :=
  IndexOpenChar ∉ s.data ∧ IndexCloseChar ∉ s.data

instance (s : String) : Decidable (NoBracket s) :=
  inferInstanceAs (Decidable (IndexOpenChar ∉ s.data ∧ IndexCloseChar ∉ s.data))

/-- The textual segment `key[N]`, the index written in base 10. -/
def segment (key : String) (N : Nat) : String :=
  key ++ "[" ++ toString N ++ "]"

/-- A value with one level of pointer or interface removed, if it has one
(lines 94 to 96 of `getValueByName`). -/
def Value.unwrapOnce : Value → Value
  | .ptr _ target => target
  | .iface dyn => dyn
  | v => v

/-- One level of indirection: a pointer (with its element type) or an
interface. -/
inductive Wrapper where
  | ptr (elem : Ty)
  | iface
  deriving Repr, DecidableEq

/-- The value `v` behind the given levels of indirection, outermost first. -/
def wrap : List Wrapper → Value → Value
  | [], v => v
  | .ptr t :: ws, v => .ptr t (wrap ws v)
  | .iface :: ws, v => .iface (wrap ws v)

/-- The aggregator seen on the list of the elements still to visit: the
results of `Lookup` on each element in order, up to the first error, then
`mergeValue`. -/
def aggregateElems (path : List String) : List Value → List Value → Run (Value × Option Error)
  | [], values =>
    match mergeValue values with
    | .panic => .panic
    | .ret merged => .ret (merged, none)
  | x :: xs, values =>
    match Lookup x.Interface path with
    | .panic => .panic
    | .ret (_, some err) => .ret (.invalid, some err)
    | .ret (value, none) => aggregateElems path xs (values ++ [value])

/-- The segment `s` resolves nowhere under `v`: on a value that is not
aggregable the accessor reports `ErrKeyNotFound`; a sequence is not empty and
`s` resolves nowhere under each of its elements. -/
inductive NoResolve (s : String) : Value → Prop where
  | leaf (v : Value) (hagg : isAggregable v = false)
      (hget : getValueByName v s = .ret (.invalid, some .ErrKeyNotFound)) : NoResolve s v
  | fan (t : Ty) (xs : List Value) (hne : xs ≠ [])
      (helems : ∀ x ∈ xs, NoResolve s x.Interface) : NoResolve s (.slice t xs)

/-- The path `pre` resolves directly from `v` to `u`: the accessor resolves each
of its segments in turn without error. -/
inductive Resolves : Value → List String → Value → Prop where
  | nil (v : Value) : Resolves v [] v
  | cons {v w u : Value} {s : String} {pre : List String}
      (hstep : getValueByName v s = .ret (w, none)) (hrest : Resolves w pre u) :
      Resolves v (s :: pre) u

/-- A value on which an error of the accessor comes back from `Lookup`: it is not
aggregable, or it is a sequence that is not empty and whose elements are such
values. -/
inductive Surfaces : Value → Prop where
  | leaf (v : Value) (hagg : isAggregable v = false) : Surfaces v
  | fan (t : Ty) (xs : List Value) (hne : xs ≠ [])
      (helems : ∀ x ∈ xs, Surfaces x.Interface) : Surfaces (.slice t xs)

/-- The immediate components of a value: `Child c p` when `c` is a field of the
struct `p`, an entry of the map `p`, an element of the slice `p`, the pointee
of the pointer `p` or the dynamic value of the interface `p`. -/
inductive Value.Child : Value → Value → Prop where
  | field {name key : String} {fields : List (String × Value)} {c : Value}
      (h : (key, c) ∈ fields) : Value.Child c (.strct name fields)
  | entry {kt et : Ty} {key : String} {entries : List (String × Value)} {c : Value}
      (h : (key, c) ∈ entries) : Value.Child c (.map kt et entries)
  | elem {t : Ty} {elems : List Value} {c : Value} (h : c ∈ elems) :
      Value.Child c (.slice t elems)
  | target (t : Ty) (c : Value) : Value.Child c (.ptr t c)
  | dyn (c : Value) : Value.Child c (.iface c)

/-- A strict sub-value: a component of a component, and so on, at least once. -/
def StrictSub (c p : Value) : Prop :=
  Relation.TransGen Value.Child c p

/-- The recursive calls of `Lookup`: `Recurses caller callee` when `Lookup` on the
value and path `caller`, after the segments `pre` have resolved directly to
`parent`, fails on the next segment `s`, `parent` is aggregable, and the
aggregator calls `Lookup` on the element `e` of `parent` (passed as
`e.Interface()`) with the path from `s` on. -/
inductive Recurses : Value × List String → Value × List String → Prop where
  | call {v parent w e : Value} {pre : List String} {s : String} {q : List String}
      {err : Error} {i : Nat}
      (hpre : Resolves v pre parent) (hfail : getValueByName parent s = .ret (w, some err))
      (hagg : isAggregable parent = true) (hidx : parent.Index (i : Int) = .ret e) :
      Recurses (v, pre ++ s :: q) (e.Interface, s :: q)

/-! ## The fixtures of `lookup_test.go` -/

/-- The fixture `mapFixutre`: `map[string]int{"foo": 42}`. -/
def mapFixutre : Value := .map .string .int [("foo", .int 42)]

/-- The fields of a value of the test type `MyStruct` with the given `String`,
`Map` and `StructSlice`; `Nested` is nil. -/
def MyStructFields (s : String) (m : Value) (structSlice : List Value) : List (String × Value) :=
  [("String", .str s), ("Map", m), ("Nested", .ptr (.strct "MyStruct") .invalid),
   ("StructSlice", .slice (.ptr (.strct "MyStruct")) structSlice)]

/-- A value of the test type `MyStruct`. -/
def MyStruct (s : String) (m : Value) (structSlice : List Value) : Value :=
  .strct "MyStruct" (MyStructFields s m structSlice)

/-- A pointer to a `MyStruct` whose `Map` is nil and whose `StructSlice` is
nil. -/
def MyStructLeaf (s : String) : Value :=
  .ptr (.strct "MyStruct") (MyStruct s (.map .string .int []) [])

/-- The first element of `structFixture.StructSlice`. -/
def structFixture0 : Value :=
  .ptr (.strct "MyStruct") (MyStruct "foo" mapFixutre [MyStructLeaf "bar", MyStructLeaf "foo"])

/-- The second element of `structFixture.StructSlice`. -/
def structFixture1 : Value :=
  .ptr (.strct "MyStruct") (MyStruct "qux" mapFixutre [MyStructLeaf "qux", MyStructLeaf "baz"])

/-- The fixture `structFixture`. -/
def structFixture : Value :=
  MyStruct "foo" mapFixutre [structFixture0, structFixture1]

/-! ## Example values -/

/-- A `map[string][]int` with a key that contains brackets:
`{"a[0]": {7}, "a": {8, 9}}`. -/
def bracketKeyMap : Value :=
  .map .string (.slice .int) [("a[0]", .slice .int [.int 7]), ("a", .slice .int [.int 8, .int 9])]

/-- The two elements of `mixedRecord.F`: `map[string]int{"a": 1}` and
`map[string]string{"a": "x"}`, each held in an `interface{}`. -/
def mixedElems : List Value :=
  [.iface (.map .string .int [("a", .int 1)]), .iface (.map .string .string [("a", .str "x")])]

/-- A struct `R{F: []interface{}{...}}` whose sequence holds the two maps of
`mixedElems`. -/
def mixedRecord : Value :=
  .strct "R" [("F", .slice .iface mixedElems)]

/-- A struct `T{F: []int{1, 2}, K: 5}`. -/
def intsRecord : Value :=
  .strct "T" [("F", .slice .int [.int 1, .int 2]), ("K", .int 5)]

/-- A struct `U{F: ptr}` where `ptr` points to a pointer to the int 5
(`**int`). -/
def ptrPtrRecord : Value :=
  .strct "U" [("F", .ptr (.ptr .int) (.ptr .int (.int 5)))]

/-- A struct `U{F: ptr}` where `ptr` points to the int 5 (`*int`). -/
def ptrRecord : Value :=
  .strct "U" [("F", .ptr .int (.int 5))]

/-- The elements of `[]interface{}{T{F: []int{1, 2}, K: 5}, 5}`: the struct
`intsRecord`, then the int 5. -/
def structThenInt : List Value :=
  [.iface intsRecord, .iface (.int 5)]

/-- A struct `V{M: map[string]int{"a": 1}}`. -/
def mapRecord : Value :=
  .strct "V" [("M", .map .string .int [("a", .int 1)])]

/-! ## Unfolding the driver and the aggregator -/

theorem Lookup_nil (i : Value) : Lookup i [] = .ret (i, none) := by
  rw [Lookup]

theorem Lookup_cons_ok {i w : Value} {s : String} (q : List String)
    (h : getValueByName i s = .ret (w, none)) : Lookup i (s :: q) = Lookup w q := by
  rw [Lookup, h]

theorem Lookup_cons_panic {i : Value} {s : String} (q : List String)
    (h : getValueByName i s = .panic) : Lookup i (s :: q) = .panic := by
  rw [Lookup, h]

theorem Lookup_cons_stop {i w : Value} {s : String} {e : Error} (q : List String)
    (h : getValueByName i s = .ret (w, some e)) (hagg : isAggregable i = false) :
    Lookup i (s :: q) = .ret (w, some e) := by
  rw [Lookup, h]
  simp [hagg]

theorem Lookup_cons_agg {i w : Value} {s : String} {e : Error} (q : List String)
    (h : getValueByName i s = .ret (w, some e)) (hagg : isAggregable i = true) :
    Lookup i (s :: q) = aggreateAggregableValue i (s :: q) := by
  rw [Lookup, h]
  simp [hagg]

theorem Index_slice_of_lt (t : Ty) (xs : List Value) (i : Nat) (h : i < xs.length) :
    (Value.slice t xs).Index (i : Int) = .ret (xs.get ⟨i, h⟩) := by
  simp [Value.Index, List.getElem?_eq_getElem h]

theorem loop_slice (t : Ty) (xs : List Value) (path : List String) :
    ∀ (k i : Nat) (values : List Value), k = xs.length - i →
      aggreateAggregableValue.loop (.slice t xs) path xs.length i values =
        aggregateElems path (xs.drop i) values := by
  intro k
  induction k with
  | zero =>
    intro i values hk
    have hi : xs.length ≤ i := by omega
    rw [aggreateAggregableValue.loop, List.drop_of_length_le hi]
    simp [aggregateElems, Nat.not_lt.mpr hi]
  | succ k ih =>
    intro i values hk
    have hi : i < xs.length := by omega
    rw [aggreateAggregableValue.loop, List.drop_eq_getElem_cons hi]
    simp only [hi, if_true, aggregateElems]
    split
    · rename_i h
      rw [Index_slice_of_lt t xs i hi] at h
      cases h
    · rename_i e h
      rw [Index_slice_of_lt t xs i hi] at h
      cases h
      simp only [List.get_eq_getElem]
      split <;> simp_all
      exact ih (i + 1) _ (by omega)

theorem aggreate_slice (t : Ty) (xs : List Value) (path : List String) :
    aggreateAggregableValue (.slice t xs) path = aggregateElems path xs [] := by
  rw [aggreateAggregableValue]
  simpa [Value.Len] using loop_slice t xs path (xs.length - 0) 0 [] rfl


/-! ## The segment parser -/

theorem stringsIndex_of_not_mem {s : List Char} {c : Char} (h : c ∉ s) :
    stringsIndex s c = -1 := by
  simp [stringsIndex, h]

theorem stringsIndex_of_mem {s : List Char} {c : Char} (h : c ∈ s) :
    stringsIndex s c = (s.indexOf c : Nat) := by
  simp [stringsIndex, h]

theorem parseIndex_noBracket {s : String} (h : NoBracket s) :
    parseIndex s = .ret (s, -1, none) := by
  unfold parseIndex
  simp [stringsIndex_of_not_mem h.1, stringsIndex_of_not_mem h.2]

theorem digitsValue_foldl (ds : List Char) (a : Nat) :
    ds.foldl (fun acc c => 10 * acc + (c.toNat - 48)) a = a * 10 ^ ds.length + digitsValue ds := by
  induction ds generalizing a with
  | nil => simp [digitsValue]
  | cons c ds ih =>
    simp only [List.foldl_cons, digitsValue, List.length_cons]
    rw [ih, ih (10 * 0 + (c.toNat - 48))]
    ring

theorem digitsValue_cons (c : Char) (ds : List Char) :
    digitsValue (c :: ds) = (c.toNat - 48) * 10 ^ ds.length + digitsValue ds := by
  simp only [digitsValue, List.foldl_cons]
  rw [digitsValue_foldl]
  simp [digitsValue]

theorem digitChar_isDigit (d : Nat) (h : d < 10) :
    (Nat.digitChar d).isDigit = true ∧ (Nat.digitChar d).toNat - 48 = d := by
  interval_cases d <;> decide

theorem toDigitsCore_digits (fuel : Nat) :
    ∀ (n : Nat) (ds : List Char), n < fuel → (∀ c ∈ ds, c.isDigit = true) →
      (∀ c ∈ Nat.toDigitsCore 10 fuel n ds, c.isDigit = true) ∧
      Nat.toDigitsCore 10 fuel n ds ≠ [] ∧
      digitsValue (Nat.toDigitsCore 10 fuel n ds) = n * 10 ^ ds.length + digitsValue ds := by
  induction fuel with
  | zero => intro n ds h; omega
  | succ fuel ih =>
    intro n ds hn hds
    have hd := digitChar_isDigit (n % 10) (Nat.mod_lt _ (by decide))
    have hall : ∀ c ∈ Nat.digitChar (n % 10) :: ds, c.isDigit = true := by
      intro c hc
      rcases List.mem_cons.mp hc with rfl | hc
      · exact hd.1
      · exact hds c hc
    simp only [Nat.toDigitsCore]
    split
    · rename_i h0
      refine ⟨hall, by simp, ?_⟩
      rw [digitsValue_cons, hd.2]
      have : n % 10 = n := by omega
      rw [this]
    · rename_i h0
      obtain ⟨h1, h2, h3⟩ := ih (n / 10) (Nat.digitChar (n % 10) :: ds) (by omega) hall
      refine ⟨h1, h2, ?_⟩
      rw [h3, digitsValue_cons, hd.2, List.length_cons, pow_succ]
      have hdm : n = 10 * (n / 10) + n % 10 := (Nat.div_add_mod n 10).symm
      conv_rhs => rw [hdm]
      ring

theorem toString_digits (n : Nat) :
    (∀ c ∈ (toString n).data, c.isDigit = true) ∧ (toString n).data ≠ [] ∧
      digitsValue (toString n).data = n := by
  have h := toDigitsCore_digits (n + 1) n [] (Nat.lt_succ_self n) (by simp)
  simpa [toString, Nat.repr, Nat.toDigits, List.asString, digitsValue] using h

theorem indexOf_append_cons {l : List Char} {c : Char} (h : c ∉ l) (r : List Char) :
    (l ++ c :: r).indexOf c = l.length := by
  induction l with
  | nil => simp
  | cons a l ih =>
    have hne : a ≠ c := fun e => h (by simp [e])
    have hl : c ∉ l := fun e => h (by simp [e])
    simp [List.indexOf_cons, hne, ih hl]

theorem isDigit_ne_bracket {c : Char} (h : c.isDigit = true) :
    c ≠ '[' ∧ c ≠ ']' ∧ c ≠ '-' ∧ c ≠ '+' := by
  refine ⟨?_, ?_, ?_, ?_⟩ <;> (rintro rfl; exact absurd h (by decide))

theorem segment_data (key : String) (N : Nat) :
    (segment key N).data = key.data ++ '[' :: ((toString N).data ++ [']']) := by
  simp [segment, String.data_append]

theorem Atoi_digits {ds : List Char} (hall : ∀ c ∈ ds, c.isDigit = true) (hne : ds ≠ [])
    (hmax : digitsValue ds ≤ maxInt) : Atoi ds = some (digitsValue ds : Int) := by
  cases ds with
  | nil => exact absurd rfl hne
  | cons c ds =>
    have hc := isDigit_ne_bracket (hall c (by simp))
    have hall2 : (c :: ds).all Char.isDigit = true := by
      simpa [List.all_eq_true] using hall
    have h1 : ¬ (c = '-') := hc.2.2.1
    have h2 : ¬ (c = '+') := hc.2.2.2
    simp only [Atoi, List.head?_cons, Option.some.injEq, h1, h2, or_self, if_false, hall2,
      not_true_eq_false, or_false, hmax, if_true, reduceCtorEq]

theorem parseIndex_segment {key : String} (N : Nat) (hkey : NoBracket key) (hN : N ≤ maxInt) :
    parseIndex (segment key N) = .ret (key, (N : Int), none) := by
  obtain ⟨hall, hne, hval⟩ := toString_digits N
  have hopen : IndexOpenChar ∈ (segment key N).data := by
    simp [segment_data, IndexOpenChar]
  have hclose : IndexCloseChar ∈ (segment key N).data := by
    simp [segment_data, IndexCloseChar]
  have hstart : stringsIndex (segment key N).data IndexOpenChar = (key.data.length : Nat) := by
    rw [stringsIndex_of_mem hopen, segment_data]
    exact congrArg _ (indexOf_append_cons hkey.1 _)
  have hnot : IndexCloseChar ∉ key.data ++ '[' :: (toString N).data := by
    intro h
    rcases List.mem_append.mp h with h | h
    · exact hkey.2 h
    · rcases List.mem_cons.mp h with h | h
      · exact absurd h (by decide)
      · exact (isDigit_ne_bracket (hall _ h)).2.1 rfl
  have hend : stringsIndex (segment key N).data IndexCloseChar =
      ((key.data.length + 1 + (toString N).data.length : Nat) : Int) := by
    rw [stringsIndex_of_mem hclose, segment_data]
    have := indexOf_append_cons hnot []
    simp only [List.append_assoc, List.cons_append, List.length_append, List.length_cons] at this
    have h2 : List.indexOf IndexCloseChar (key.data ++ '[' :: ((toString N).data ++ [']'])) =
        key.data.length + ((toString N).data.length + 1) := this
    rw [h2]
    congr 1
    omega
  have hs1 : sliceString (segment key N).data ((key.data.length : Nat) + 1)
      ((key.data.length + 1 + (toString N).data.length : Nat) : Int) = .ret (toString N).data := by
    have hcond : (0 : Int) ≤ (key.data.length : Nat) + 1 ∧
        ((key.data.length : Nat) : Int) + 1 ≤ ((key.data.length + 1 + (toString N).data.length : Nat) : Int) ∧
        ((key.data.length + 1 + (toString N).data.length : Nat) : Int) ≤
          ((segment key N).data.length : Nat) := by
      rw [segment_data]
      simp only [List.length_append, List.length_cons, List.length_nil]
      omega
    rw [sliceString, if_pos hcond, segment_data]
    have e1 : ((key.data.length + 1 + (toString N).data.length : Nat) : Int).toNat =
        (key.data ++ '[' :: (toString N).data).length := by
      simp only [Int.toNat_ofNat, List.length_append, List.length_cons]
      omega
    have e2 : (((key.data.length : Nat) : Int) + 1).toNat = (key.data ++ ['[']).length := by
      simp only [List.length_append, List.length_cons, List.length_nil]
      omega
    have e3 : key.data ++ '[' :: ((toString N).data ++ [']']) =
        (key.data ++ '[' :: (toString N).data) ++ [']'] := by simp
    have e4 : key.data ++ '[' :: (toString N).data = (key.data ++ ['[']) ++ (toString N).data := by
      simp
    rw [e1, e3, List.take_left, e2, e4, List.drop_left]
  have hs2 : sliceString (segment key N).data 0 ((key.data.length : Nat) : Int) = .ret key.data := by
    have hcond : (0 : Int) ≤ 0 ∧ (0 : Int) ≤ ((key.data.length : Nat) : Int) ∧
        ((key.data.length : Nat) : Int) ≤ ((segment key N).data.length : Nat) := by
      rw [segment_data]
      simp only [List.length_append, List.length_cons, List.length_nil]
      omega
    rw [sliceString, if_pos hcond, segment_data]
    simp
  have hA : Atoi (toString N).data = some (N : Int) := by
    have := Atoi_digits hall hne (by rw [hval]; exact hN)
    rw [hval] at this
    exact this
  unfold parseIndex
  simp only [hstart, hend, hs1, hs2, hA]
  have c1 : ¬ (((key.data.length : Nat) : Int) = -1 ∧
      ((key.data.length + 1 + (toString N).data.length : Nat) : Int) = -1) := by omega
  have c2 : ¬ ((((key.data.length : Nat) : Int) ≠ -1 ∧
      ((key.data.length + 1 + (toString N).data.length : Nat) : Int) = -1) ∨
      (((key.data.length : Nat) : Int) = -1 ∧
      ((key.data.length + 1 + (toString N).data.length : Nat) : Int) ≠ -1)) := by omega
  rw [if_neg c1, if_neg c2]
/-! ## The single-step accessor -/

theorem located_invalid (index : Int) :
    getValueByName.located .invalid index = .ret (.invalid, some .ErrKeyNotFound) := by
  simp [getValueByName.located, Value.IsValid]

theorem located_noIndex {x : Value} (hx : x.IsValid = true) :
    getValueByName.located x (-1) = .ret (x.unwrapOnce, none) := by
  cases x <;> simp_all [getValueByName.located, Value.IsValid, Value.Kind, Value.Elem,
    Value.unwrapOnce]

theorem located_notSlice {x : Value} {index : Int} (hx : x.IsValid = true)
    (hk : x.Kind ≠ .Slice) (hi : index ≠ -1) :
    getValueByName.located x index = .ret (.invalid, some .ErrInvalidIndexUsage) := by
  cases x <;> simp_all [getValueByName.located, Value.IsValid, Value.Kind, Value.Type, Ty.Kind]

theorem located_slice_lt (t : Ty) (xs : List Value) (N : Nat) (h : N < xs.length) :
    getValueByName.located (.slice t xs) (N : Int) = .ret ((xs.get ⟨N, h⟩).unwrapOnce, none) := by
  have hN : ¬ ((N : Int) = -1) := by omega
  simp only [getValueByName.located, Value.IsValid, Value.Type, Ty.Kind, Index_slice_of_lt t xs N h]
  cases xs.get ⟨N, h⟩ <;> simp [Value.Kind, Value.Elem, Value.unwrapOnce, hN]

theorem located_slice_ge (t : Ty) (xs : List Value) (N : Nat) (h : xs.length ≤ N) :
    getValueByName.located (.slice t xs) (N : Int) = .panic := by
  have hN : ¬ ((N : Int) = -1) := by omega
  have hidx : (Value.slice t xs).Index (N : Int) = .panic := by
    simp [Value.Index, List.getElem?_eq_none h]
  simp [getValueByName.located, Value.IsValid, Value.Type, Ty.Kind, hidx, hN]

theorem getValueByName_of_parse {v : Value} {s key : String} {index : Int}
    (h : parseIndex s = .ret (key, index, none)) :
    getValueByName v s =
      match v with
      | .ptr _ target => getValueByName target key
      | .iface dyn => getValueByName dyn key
      | .strct _ fields => getValueByName.located ((fields.lookup key).getD .invalid) index
      | .map k _ entries =>
        if k.Kind = .String then getValueByName.located ((entries.lookup key).getD .invalid) index
        else .panic
      | _ => getValueByName.located .invalid index := by
  rw [getValueByName, h]
  cases v <;> simp only [Value.FieldByName, Value.MapIndexString]
  split
  · rename_i heq
    split at heq
    · cases heq
    · simp [*]
  · rename_i heq
    split at heq
    · cases heq
      simp [*]
    · cases heq

theorem getValueByName_parse_err {v : Value} {s key : String} {index : Int} {e : Error}
    (h : parseIndex s = .ret (key, index, some e)) :
    getValueByName v s = .ret (.invalid, some e) := by
  rw [getValueByName, h]

theorem getValueByName_parse_panic {v : Value} {s : String}
    (h : parseIndex s = .panic) : getValueByName v s = .panic := by
  rw [getValueByName, h]
/-! ## Fan-out over a sequence -/

theorem getValueByName_slice (t : Ty) (xs : List Value) (s : String)
    (h : parseIndex s ≠ .panic) :
    ∃ e, getValueByName (.slice t xs) s = .ret (.invalid, some e) := by
  cases hp : parseIndex s with
  | panic => exact absurd hp h
  | ret r =>
    obtain ⟨key, index, err⟩ := r
    cases err with
    | some e => exact ⟨e, getValueByName_parse_err hp⟩
    | none =>
      refine ⟨.ErrKeyNotFound, ?_⟩
      rw [getValueByName_of_parse hp]
      exact located_invalid index

theorem parse_ne_panic_of_Lookup {x : Value} {s : String} {q : List String}
    {r : Value × Option Error} (h : Lookup x (s :: q) = .ret r) : parseIndex s ≠ .panic := by
  intro hp
  rw [Lookup_cons_panic q (getValueByName_parse_panic hp)] at h
  cases h

theorem Lookup_slice (t : Ty) (xs : List Value) (s : String) (q : List String)
    (h : parseIndex s ≠ .panic) :
    Lookup (.slice t xs) (s :: q) = aggregateElems (s :: q) xs [] := by
  obtain ⟨e, he⟩ := getValueByName_slice t xs s h
  rw [Lookup_cons_agg q he rfl, aggreate_slice]

theorem aggregateElems_ok (path : List String) {xs rs : List Value}
    (h : List.Forall₂ (fun x r => Lookup x.Interface path = .ret (r, none)) xs rs) :
    ∀ values, aggregateElems path xs values =
      match mergeValue (values ++ rs) with
      | .panic => .panic
      | .ret merged => .ret (merged, none) := by
  induction h with
  | nil => intro values; simp [aggregateElems]
  | cons hx _ ih =>
    intro values
    rw [aggregateElems, hx]
    simp only
    rw [ih]
    simp

theorem aggregateElems_fail (path : List String) (e : Error) (val : Value) :
    ∀ (xs : List Value) (j : Nat) (hj : j < xs.length) (values : List Value),
      (∀ i (hi : i < j), ∃ r, Lookup (xs.get ⟨i, Nat.lt_trans hi hj⟩).Interface path = .ret (r, none)) →
      Lookup (xs.get ⟨j, hj⟩).Interface path = .ret (val, some e) →
      aggregateElems path xs values = .ret (.invalid, some e) := by
  intro xs
  induction xs with
  | nil => intro j hj; exact absurd hj (Nat.not_lt_zero _)
  | cons x xs ih =>
    intro j hj values hbefore hfail
    cases j with
    | zero =>
      simp only [List.get_eq_getElem, List.getElem_cons_zero] at hfail
      rw [aggregateElems, hfail]
    | succ j =>
      obtain ⟨r, hr⟩ := hbefore 0 (Nat.succ_pos j)
      simp only [List.get_eq_getElem, List.getElem_cons_zero] at hr
      rw [aggregateElems, hr]
      simp only
      have hj2 : j < xs.length := Nat.lt_of_succ_lt_succ hj
      refine ih j hj2 _ ?_ ?_
      · intro i hi
        have := hbefore (i + 1) (Nat.succ_lt_succ hi)
        simpa using this
      · simpa using hfail
/-! ## Merging results of one type -/

theorem Kind_of_Type {v : Value} {ty : Ty} (h : v.Type = .ret ty) : v.Kind = ty.Kind := by
  cases v <;> simp [Value.Type] at h <;> subst h <;> rfl

theorem IsValid_of_Type {v : Value} {ty : Ty} (h : v.Type = .ret ty) : v.IsValid = true := by
  cases v <;> simp [Value.Type] at h <;> rfl

theorem mergeLoop_append (ty : Ty) :
    ∀ (rs acc : List Value), (∀ r ∈ rs, r.Type = .ret ty) →
      mergeValue.loop false (.slice ty acc) rs = .ret (.slice ty (acc ++ rs)) := by
  intro rs
  induction rs with
  | nil => intro acc _; simp [mergeValue.loop]
  | cons r rs ih =>
    intro acc h
    have hr := h r (by simp)
    rw [mergeValue.loop]
    simp only [IsValid_of_Type hr, Bool.not_true, Bool.false_eq_true, if_false, reflectAppend, hr,
      if_true]
    rw [ih _ (fun x hx => h x (by simp [hx]))]
    simp

theorem mergeValue_same_type (ty : Ty) (rs : List Value) (hne : rs ≠ [])
    (h : ∀ r ∈ rs, r.Type = .ret ty) (hmap : ty.Kind ≠ .Map) (hslice : ty.Kind ≠ .Slice) :
    mergeValue rs = .ret (.slice ty rs) := by
  have hfilter : removeZeroValues rs = rs := by
    rw [removeZeroValues, List.filter_eq_self]
    exact fun r hr => IsValid_of_Type (h r hr)
  cases rs with
  | nil => exact absurd rfl hne
  | cons r rs =>
    have hr := h r (by simp)
    have hk := Kind_of_Type hr
    have hm : isMergeable r = false := by
      simp [isMergeable, hk, hmap, hslice]
    rw [mergeValue, hfilter]
    simp only [hr, hm, Bool.false_eq_true, if_false]
    rw [mergeLoop_append ty _ [] h]
    simp

/-! ## Lookup through a field that holds a sequence -/

theorem getValueByName_field {name : String} {fields : List (String × Value)} {F : String}
    {x : Value} (hF : NoBracket F) (hfield : fields.lookup F = some x) (hx : x.IsValid = true) :
    getValueByName (.strct name fields) F = .ret (x.unwrapOnce, none) := by
  rw [getValueByName_of_parse (parseIndex_noBracket hF)]
  simp only [hfield, Option.getD_some]
  exact located_noIndex hx

theorem getValueByName_entry {kt et : Ty} {entries : List (String × Value)} {k : String}
    {x : Value} (hkt : kt.Kind = .String) (hk : NoBracket k) (hentry : entries.lookup k = some x)
    (hx : x.IsValid = true) :
    getValueByName (.map kt et entries) k = .ret (x.unwrapOnce, none) := by
  rw [getValueByName_of_parse (parseIndex_noBracket hk)]
  simp only [hkt, if_true, hentry, Option.getD_some]
  exact located_noIndex hx

theorem Lookup_field_fanout (name : String) (fields : List (String × Value)) {F : String}
    {t : Ty} {xs rs : List Value} {s : String} {q : List String}
    (hF : NoBracket F) (hfield : fields.lookup F = some (.slice t xs))
    (hs : xs = [] → parseIndex s ≠ .panic)
    (hr : List.Forall₂ (fun x r => Lookup x.Interface (s :: q) = .ret (r, none)) xs rs) :
    Lookup (.strct name fields) (F :: s :: q) =
      match mergeValue rs with
      | .panic => .panic
      | .ret merged => .ret (merged, none) := by
  have hparse : parseIndex s ≠ .panic := by
    cases hr with
    | nil => exact hs rfl
    | cons hx _ => exact parse_ne_panic_of_Lookup hx
  rw [Lookup_cons_ok _ (getValueByName_field hF hfield rfl)]
  simp only [Value.unwrapOnce]
  rw [Lookup_slice t xs s q hparse, aggregateElems_ok _ hr]
  simp
/-! ## C1: a key of a mapping -/

/-- C1, counterexample: in the map `{"a[0]": {7}, "a": {8, 9}}`, a well typed
`map[string][]int`, the key `a[0]` is present with the entry `{7}`, yet `Lookup` on the path `["a[0]"]` returns the
int 8, element 0 of the entry under `a`. -/
theorem C1_bracket_key_counterexample :
    bracketKeyMap.WellTyped = true ∧
    List.lookup "a[0]" [("a[0]", Value.slice .int [.int 7]), ("a", Value.slice .int [.int 8, .int 9])]
        = some (.slice .int [.int 7]) ∧
      Lookup bracketKeyMap ["a[0]"] = .ret (.int 8, none) ∧
      Lookup bracketKeyMap ["a[0]"] ≠ .ret (.slice .int [.int 7], none) := by
  have h : Lookup bracketKeyMap ["a[0]"] = .ret (.int 8, none) := by
    rw [Lookup_cons_ok (i := bracketKeyMap) (s := "a[0]") (w := .int 8) [] rfl, Lookup_nil]
  refine ⟨by decide, rfl, h, ?_⟩
  rw [h]
  intro hc
  cases hc

/-- C1, amended: for every map whose key type has kind String, every key `k`
without brackets that is present with a valid entry `x`, `Lookup(m, [k])`
succeeds and returns `x` with one level of pointer or interface removed when
`x` is a pointer or an interface, and `x` itself otherwise. -/
theorem C1_lookup_map_key (kt et : Ty) (entries : List (String × Value)) (k : String)
    (x : Value) (hkt : kt.Kind = .String) (hk : NoBracket k)
    (hentry : entries.lookup k = some x) (hx : x.IsValid = true) :
    Lookup (.map kt et entries) [k] = .ret (x.unwrapOnce, none) ∧
      (x.Kind ≠ .Ptr → x.Kind ≠ .Interface →
        Lookup (.map kt et entries) [k] = .ret (x, none)) := by
  have h : Lookup (.map kt et entries) [k] = .ret (x.unwrapOnce, none) := by
    rw [Lookup_cons_ok [] (getValueByName_entry hkt hk hentry hx), Lookup_nil]
  refine ⟨h, fun hp hi => ?_⟩
  rw [h]
  cases x <;> simp_all [Value.unwrapOnce, Value.Kind]

/-- C1, witness: `Lookup(map[string]int{"foo": 42}, ["foo"])` is 42. -/
theorem C1_lookup_map_key_witness :
    Lookup (.map .string .int [("foo", .int 42)]) ["foo"] = .ret ((Value.int 42).unwrapOnce, none) ∧
      ((Value.int 42).Kind ≠ .Ptr → (Value.int 42).Kind ≠ .Interface →
        Lookup (.map .string .int [("foo", .int 42)]) ["foo"] = .ret (.int 42, none)) :=
  C1_lookup_map_key .string .int [("foo", .int 42)] "foo" (.int 42) rfl (by decide) rfl rfl

/-! ## C2: fan-out through a field -/

/-- C2, counterexample: the field `F` of the well typed `mixedRecord` holds two
maps, under the path `["a"]` the first yields the int 1 and the second the
string `x`, both without error, and `Lookup(mixedRecord, ["F", "a"])` panics
(in `mergeValue`, which appends the string to a slice of ints). -/
theorem C2_mixed_results_counterexample :
    mixedRecord.WellTyped = true ∧
    List.lookup "F" [("F", Value.slice .iface mixedElems)] = some (.slice .iface mixedElems) ∧
      List.Forall₂ (fun x r => Lookup x.Interface ["a"] = .ret (r, none)) mixedElems
        [.int 1, .str "x"] ∧
      Lookup mixedRecord ["F", "a"] = .panic := by
  have h1 : Lookup (Value.map .string .int [("a", .int 1)]) ["a"] = .ret (.int 1, none) := by
    rw [Lookup_cons_ok (i := .map .string .int [("a", .int 1)]) (s := "a") (w := .int 1) [] rfl,
      Lookup_nil]
  have h2 : Lookup (Value.map .string .string [("a", .str "x")]) ["a"] = .ret (.str "x", none) := by
    rw [Lookup_cons_ok (i := .map .string .string [("a", .str "x")]) (s := "a") (w := .str "x") []
      rfl, Lookup_nil]
  have hall : List.Forall₂ (fun x r => Lookup x.Interface ["a"] = .ret (r, none)) mixedElems
      [.int 1, .str "x"] :=
    List.Forall₂.cons h1 (List.Forall₂.cons h2 List.Forall₂.nil)
  refine ⟨by decide, rfl, hall, ?_⟩
  have := Lookup_field_fanout "R" [("F", Value.slice .iface mixedElems)]
    (by decide : NoBracket "F") rfl (fun _ => by decide) hall
  rw [mixedRecord, this]
  rfl

/-- C2, amended: for every record whose field `F` holds a sequence `xs` and every
non-empty path `s :: q` (whose first segment the parser takes without fault
when `xs` is empty) such that `Lookup(x, s :: q)` succeeds with `r` for every
element `x` of `xs`, in order `rs`: whenever `mergeValue rs` returns a value,
`Lookup(record, F :: s :: q)` succeeds and returns it; and when `xs` is not
empty and the results all have one type that is neither a map nor a slice
type, the result is the sequence `rs` itself, the i-th value being the result
for the i-th element. -/
theorem C2_fanout_field (name : String) (fields : List (String × Value)) (F : String)
    (t : Ty) (xs rs : List Value) (s : String) (q : List String)
    (hF : NoBracket F) (hfield : fields.lookup F = some (.slice t xs))
    (hs : xs = [] → parseIndex s ≠ .panic)
    (hr : List.Forall₂ (fun x r => Lookup x.Interface (s :: q) = .ret (r, none)) xs rs) :
    (∀ m, mergeValue rs = .ret m →
        Lookup (.strct name fields) (F :: s :: q) = .ret (m, none)) ∧
      (∀ ty, xs ≠ [] → (∀ r ∈ rs, r.Type = .ret ty) → ty.Kind ≠ .Map → ty.Kind ≠ .Slice →
        Lookup (.strct name fields) (F :: s :: q) = .ret (.slice ty rs, none) ∧
          rs.length = xs.length) := by
  have h := Lookup_field_fanout name fields hF hfield hs hr
  refine ⟨fun m hm => ?_, fun ty hne hty hmap hslice => ?_⟩
  · rw [h, hm]
  · have hrs : rs ≠ [] := by
      intro hnil
      subst hnil
      cases hr
      exact hne rfl
    rw [h, mergeValue_same_type ty rs hrs hty hmap hslice]
    exact ⟨rfl, hr.length_eq.symm⟩

/-- C2, witness: the test `TestAggregableLookup_StructIndex`, the path
`["StructSlice", "Map", "foo"]` on `structFixture` gives `[]int{42, 42}`. -/
theorem C2_fanout_field_witness :
    Lookup structFixture ["StructSlice", "Map", "foo"] =
        .ret (.slice .int [.int 42, .int 42], none) ∧
      [Value.int 42, Value.int 42].length = [structFixture0, structFixture1].length := by
  have h0 : Lookup structFixture0.Interface ["Map", "foo"] = .ret (.int 42, none) := by
    rw [Lookup_cons_ok (i := structFixture0.Interface) (s := "Map") (w := mapFixutre) _ rfl,
      Lookup_cons_ok (i := mapFixutre) (s := "foo") (w := .int 42) _ rfl, Lookup_nil]
  have h1 : Lookup structFixture1.Interface ["Map", "foo"] = .ret (.int 42, none) := by
    rw [Lookup_cons_ok (i := structFixture1.Interface) (s := "Map") (w := mapFixutre) _ rfl,
      Lookup_cons_ok (i := mapFixutre) (s := "foo") (w := .int 42) _ rfl, Lookup_nil]
  exact (C2_fanout_field "MyStruct" (MyStructFields "foo" mapFixutre [structFixture0, structFixture1])
    "StructSlice" (.ptr (.strct "MyStruct")) [structFixture0, structFixture1]
    [.int 42, .int 42] "Map" ["foo"] (by decide) rfl (fun h => by cases h)
    (List.Forall₂.cons h0 (List.Forall₂.cons h1 List.Forall₂.nil))).2 .int
      (by simp) (by simp [Value.Type]) (by decide) (by decide)
/-! ## C3: pointers and interfaces in front of a value -/

theorem getValueByName_wrap {s : String} (hs : NoBracket s) (v : Value) :
    ∀ ws : List Wrapper, getValueByName (wrap ws v) s = getValueByName v s := by
  intro ws
  induction ws with
  | nil => rfl
  | cons w ws ih =>
    cases w with
    | ptr t =>
      rw [wrap, getValueByName_of_parse (parseIndex_noBracket hs)]
      exact ih
    | iface =>
      rw [wrap, getValueByName_of_parse (parseIndex_noBracket hs)]
      exact ih

theorem isAggregable_wrap {ws : List Wrapper} (hws : ws ≠ []) (v : Value) :
    isAggregable (wrap ws v) = false := by
  cases ws with
  | nil => exact absurd rfl hws
  | cons w ws => cases w <;> rfl

theorem IsValid_wrap {ws : List Wrapper} (hws : ws ≠ []) (v : Value) :
    (wrap ws v).IsValid = true := by
  cases ws with
  | nil => exact absurd rfl hws
  | cons w ws => cases w <;> rfl

theorem unwrapOnce_wrap (w : Wrapper) (ws : List Wrapper) (v : Value) :
    (wrap (w :: ws) v).unwrapOnce = wrap ws v := by
  cases w <;> rfl

theorem unwrapOnce_of_not_wrapper {x : Value} (hp : x.Kind ≠ .Ptr) (hi : x.Kind ≠ .Interface) :
    x.unwrapOnce = x := by
  cases x <;> simp_all [Value.unwrapOnce, Value.Kind]

theorem Lookup_wrap {ws : List Wrapper} (hws : ws ≠ []) {s : String} (hs : NoBracket s)
    (q : List String) (v : Value)
    (hagg : ∀ w e, getValueByName v s = .ret (w, some e) → isAggregable v = false) :
    Lookup (wrap ws v) (s :: q) = Lookup v (s :: q) := by
  have hw := getValueByName_wrap hs v ws
  cases hv : getValueByName v s with
  | panic =>
    rw [hv] at hw
    rw [Lookup_cons_panic q hw, Lookup_cons_panic q hv]
  | ret r =>
    obtain ⟨w, err⟩ := r
    rw [hv] at hw
    cases err with
    | none => rw [Lookup_cons_ok q hw, Lookup_cons_ok q hv]
    | some e =>
      rw [Lookup_cons_stop q hw (isAggregable_wrap hws v), Lookup_cons_stop q hv (hagg w e hv)]

/-- C3, evaluation at the failing input: on the struct `T{F: []int{1, 2}, K: 5}`
the path `["F[0]"]` gives the int 1, element 0 of `F`; on a pointer to the
same struct it gives the whole sequence `F`, because on a pointer the accessor
calls itself with the key that `parseIndex` returned and loses the index. -/
theorem C3_index_dropped_behind_pointer :
    (wrap [.ptr (.strct "T")] intsRecord).WellTyped = true ∧
    Lookup intsRecord ["F[0]"] = .ret (.int 1, none) ∧
      Lookup (wrap [.ptr (.strct "T")] intsRecord) ["F[0]"] =
        .ret (.slice .int [.int 1, .int 2], none) ∧
      Lookup (wrap [.ptr (.strct "T")] intsRecord) ["F[0]"] ≠ Lookup intsRecord ["F[0]"] := by
  have h1 : Lookup intsRecord ["F[0]"] = .ret (.int 1, none) := by
    rw [Lookup_cons_ok (i := intsRecord) (s := "F[0]") (w := .int 1) _ rfl, Lookup_nil]
  have h2 : Lookup (wrap [.ptr (.strct "T")] intsRecord) ["F[0]"] =
      .ret (.slice .int [.int 1, .int 2], none) := by
    rw [Lookup_cons_ok (i := wrap [.ptr (.strct "T")] intsRecord) (s := "F[0]")
      (w := .slice .int [.int 1, .int 2]) _ rfl, Lookup_nil]
  refine ⟨by decide, h1, h2, ?_⟩
  rw [h1, h2]
  intro h
  cases h

/-- Wrappers and segments without index selector: let `ws` be one or more levels
of pointer or interface and `s` a segment without brackets.  (1) The accessor
returns the
same value or error for `s` on a value behind `ws` as on the value itself.
(2) `Lookup` on a path that starts with `s` returns the same on a root behind
`ws` as on the root itself, unless `s` fails on a root that is aggregable.
(3) For a field `F` whose value `x` is not itself a pointer or interface,
putting `x` behind `ws` does not change `Lookup` on paths `F :: s :: q`, with
the same proviso on `x`; (4) behind a single level it changes `Lookup` on no
path that starts with `F`. -/
theorem wrapping_transparent (ws : List Wrapper) (hws : ws ≠ []) (s : String)
    (q : List String) (hs : NoBracket s) :
    (∀ v, getValueByName (wrap ws v) s = getValueByName v s) ∧
    (∀ v, (∀ w e, getValueByName v s = .ret (w, some e) → isAggregable v = false) →
      Lookup (wrap ws v) (s :: q) = Lookup v (s :: q)) ∧
    (∀ (name F : String) (fields fields' : List (String × Value)) (x : Value),
      NoBracket F → fields.lookup F = some x → fields'.lookup F = some (wrap ws x) →
      x.IsValid = true → x.Kind ≠ .Ptr → x.Kind ≠ .Interface →
      (∀ w e, getValueByName x s = .ret (w, some e) → isAggregable x = false) →
      Lookup (.strct name fields') (F :: s :: q) = Lookup (.strct name fields) (F :: s :: q)) ∧
    (∀ (w : Wrapper) (name F : String) (fields fields' : List (String × Value)) (x : Value)
      (p : List String),
      NoBracket F → fields.lookup F = some x → fields'.lookup F = some (wrap [w] x) →
      x.IsValid = true → x.Kind ≠ .Ptr → x.Kind ≠ .Interface →
      Lookup (.strct name fields') (F :: p) = Lookup (.strct name fields) (F :: p)) := by
  refine ⟨fun v => getValueByName_wrap hs v ws, fun v hagg => Lookup_wrap hws hs q v hagg, ?_, ?_⟩
  · intro name F fields fields' x hF hf hf' hx hp hi hagg
    rw [Lookup_cons_ok _ (getValueByName_field hF hf' (IsValid_wrap hws x)),
      Lookup_cons_ok _ (getValueByName_field hF hf hx), unwrapOnce_of_not_wrapper hp hi]
    cases ws with
    | nil => exact absurd rfl hws
    | cons w ws =>
      rw [unwrapOnce_wrap]
      cases ws with
      | nil => rfl
      | cons w2 ws => exact Lookup_wrap (by simp) hs q x hagg
  · intro w name F fields fields' x p hF hf hf' hx hp hi
    rw [Lookup_cons_ok _ (getValueByName_field hF hf' (IsValid_wrap (by simp) x)),
      Lookup_cons_ok _ (getValueByName_field hF hf hx), unwrapOnce_of_not_wrapper hp hi,
      unwrapOnce_wrap]
    rfl

/-- The test `TestLookup_Ptr`: the path `["String"]` gives the same on a pointer
to `structFixture` as on `structFixture`. -/
theorem wrapping_transparent_example :
    Lookup (wrap [.ptr (.strct "MyStruct")] structFixture) ["String"] =
      Lookup structFixture ["String"] :=
  (wrapping_transparent [.ptr (.strct "MyStruct")] (by simp) "String" [] (by decide)).2.1
    structFixture (fun w e h => by
      rw [show getValueByName structFixture "String" = .ret (.str "foo", none) from rfl] at h
      cases h)
/-! ## C4: a path that resolves nowhere -/

theorem parse_ok_of_KeyNotFound {v w : Value} {s : String}
    (h : getValueByName v s = .ret (w, some .ErrKeyNotFound)) :
    ∃ key index, parseIndex s = .ret (key, index, none) := by
  cases hp : parseIndex s with
  | panic =>
    rw [getValueByName_parse_panic hp] at h
    cases h
  | ret r =>
    obtain ⟨key, index, err⟩ := r
    cases err with
    | none => exact ⟨key, index, rfl⟩
    | some e =>
      rw [getValueByName_parse_err hp] at h
      cases h
      simp only [parseIndex] at hp
      split at hp
      · cases hp
      · split at hp
        · cases hp
        · split at hp
          · cases hp
          · split at hp
            · cases hp
            · split at hp <;> cases hp

theorem NoResolve_parse {s : String} {v : Value} (h : NoResolve s v) :
    ∃ key index, parseIndex s = .ret (key, index, none) := by
  induction h with
  | leaf v _ hget => exact parse_ok_of_KeyNotFound hget
  | fan t xs hne _ ih =>
    cases xs with
    | nil => exact absurd rfl hne
    | cons x xs => exact ih x (by simp)

/-- C4, counterexample: on the empty sequence `[]int{}` the segment `a` names
nothing, and `Lookup` returns the zero Value with no error. -/
theorem C4_empty_sequence_counterexample :
    (Value.slice .int []).WellTyped = true ∧
    getValueByName (.slice .int []) "a" = .ret (.invalid, some .ErrKeyNotFound) ∧
      Lookup (.slice .int []) ["a"] = .ret (.invalid, none) := by
  refine ⟨by decide, rfl, ?_⟩
  rw [Lookup_slice .int [] "a" [] (by decide)]
  rfl

/-- C4, amended: when the first segment `s` of the path resolves nowhere under
`v`, where `v` is not a record or a mapping and every sequence reached by
fan-out is non-empty (`NoResolve`), `Lookup(v, s :: q)` fails with
`ErrKeyNotFound` and returns the zero Value. -/
theorem C4_key_not_found (s : String) (q : List String) (v : Value) (h : NoResolve s v) :
    Lookup v (s :: q) = .ret (.invalid, some .ErrKeyNotFound) := by
  induction h with
  | leaf v hagg hget => exact Lookup_cons_stop q hget hagg
  | fan t xs hne helems ih =>
    obtain ⟨key, index, hp⟩ := NoResolve_parse (NoResolve.fan t xs hne helems)
    have hne2 : parseIndex s ≠ .panic := by
      rw [hp]
      intro hc
      cases hc
    rw [Lookup_slice t xs s q hne2]
    cases xs with
    | nil => exact absurd rfl hne
    | cons x xs =>
      rw [aggregateElems, ih x (by simp)]

/-- C4, witness: the path `["a"]` on the sequence `[]int{1, 2}`. -/
theorem C4_key_not_found_witness :
    Lookup (.slice .int [.int 1, .int 2]) ["a"] = .ret (.invalid, some .ErrKeyNotFound) :=
  C4_key_not_found "a" [] (.slice .int [.int 1, .int 2])
    (NoResolve.fan .int [.int 1, .int 2] (by simp) (fun x hx => by
      simp only [List.mem_cons, List.mem_singleton, List.not_mem_nil, or_false] at hx
      rcases hx with rfl | rfl
      · exact NoResolve.leaf _ rfl rfl
      · exact NoResolve.leaf _ rfl rfl))

/-! ## C5: runtime faults -/

theorem aggreate_strct (name : String) (fields : List (String × Value)) (path : List String) :
    aggreateAggregableValue (.strct name fields) path = .panic := by
  rw [aggreateAggregableValue]
  rfl

theorem aggreate_map_cons (kt et : Ty) (entry : String × Value) (entries : List (String × Value))
    (path : List String) :
    aggreateAggregableValue (.map kt et (entry :: entries)) path = .panic := by
  rw [aggreateAggregableValue]
  simp only [Value.Len, List.length_cons]
  rw [aggreateAggregableValue.loop]
  simp only [Nat.zero_lt_succ, if_true]
  split
  · rfl
  · rename_i h
    simp [Value.Index] at h

/-- C5, evaluation at failing inputs: `Lookup` panics (1) on a struct and a field
name it does not have, in `v.Len()` of the aggregator; (2) on a non-empty map
and an absent key, in `v.Index(0)` of the aggregator; (3) on the segment `][`,
in the slice expression of `parseIndex`; (4) on an index equal to the length
of the sequence, in `value.Index(index)`; (5) on a fan-out whose results are
maps, in `reflect.AppendSlice` of `mergeValue`. -/
theorem C5_lookup_panics :
    (intsRecord.WellTyped = true ∧ mapFixutre.WellTyped = true ∧
      (Value.slice (.strct "V") [mapRecord]).WellTyped = true) ∧
    Lookup intsRecord ["B"] = .panic ∧
      Lookup mapFixutre ["bar"] = .panic ∧
      Lookup (.int 1) ["]["] = .panic ∧
      Lookup intsRecord ["F[2]"] = .panic ∧
      Lookup (.slice (.strct "V") [mapRecord]) ["M"] = .panic := by
  refine ⟨by decide, ?_, ?_, ?_, ?_, ?_⟩
  · rw [Lookup_cons_agg (i := intsRecord) (s := "B") (w := .invalid) (e := .ErrKeyNotFound) _
      rfl rfl]
    exact aggreate_strct _ _ _
  · rw [Lookup_cons_agg (i := mapFixutre) (s := "bar") (w := .invalid) (e := .ErrKeyNotFound) _
      rfl rfl]
    exact aggreate_map_cons _ _ _ _ _
  · exact Lookup_cons_panic (i := .int 1) (s := "][") _ rfl
  · exact Lookup_cons_panic (i := intsRecord) (s := "F[2]") _ rfl
  · have h : Lookup mapRecord.Interface ["M"] = .ret (.map .string .int [("a", .int 1)], none) := by
      rw [Lookup_cons_ok (i := mapRecord.Interface) (s := "M")
        (w := .map .string .int [("a", .int 1)]) _ rfl, Lookup_nil]
    rw [Lookup_slice _ _ "M" [] (by decide),
      aggregateElems_ok ["M"] (List.Forall₂.cons h List.Forall₂.nil)]
    rfl

/-! ## C6: the first failing element -/

theorem aggregateElems_panic (path : List String) :
    ∀ (xs : List Value) (j : Nat) (hj : j < xs.length) (values : List Value),
      (∀ i (hi : i < j), ∃ r, Lookup (xs.get ⟨i, Nat.lt_trans hi hj⟩).Interface path = .ret (r, none)) →
      Lookup (xs.get ⟨j, hj⟩).Interface path = .panic →
      aggregateElems path xs values = .panic := by
  intro xs
  induction xs with
  | nil => intro j hj; exact absurd hj (Nat.not_lt_zero _)
  | cons x xs ih =>
    intro j hj values hbefore hfail
    cases j with
    | zero =>
      simp only [List.get_eq_getElem, List.getElem_cons_zero] at hfail
      rw [aggregateElems, hfail]
    | succ j =>
      obtain ⟨r, hr⟩ := hbefore 0 (Nat.succ_pos j)
      simp only [List.get_eq_getElem, List.getElem_cons_zero] at hr
      rw [aggregateElems, hr]
      simp only
      have hj2 : j < xs.length := Nat.lt_of_succ_lt_succ hj
      refine ih j hj2 _ ?_ ?_
      · intro i hi
        have := hbefore (i + 1) (Nat.succ_lt_succ hi)
        simpa using this
      · simpa using hfail

/-- The first element that does not succeed: when, in a sequence `xs`, `Lookup`
on the path `s :: q` succeeds for the elements before position `j`, then
(1) if it fails on element `j` with the
error `e`, `Lookup` on the sequence and the aggregator on it return the zero
Value and `e`, and (2) if it panics on element `j`, so does `Lookup` on the
sequence. -/
theorem first_failure (t : Ty) (xs : List Value) (s : String) (q : List String) (j : Nat)
    (hj : j < xs.length)
    (hbefore : ∀ i (hi : i < j),
      ∃ r, Lookup (xs.get ⟨i, Nat.lt_trans hi hj⟩).Interface (s :: q) = .ret (r, none)) :
    (∀ val e, Lookup (xs.get ⟨j, hj⟩).Interface (s :: q) = .ret (val, some e) →
      Lookup (.slice t xs) (s :: q) = .ret (.invalid, some e) ∧
        aggreateAggregableValue (.slice t xs) (s :: q) = .ret (.invalid, some e)) ∧
    (Lookup (xs.get ⟨j, hj⟩).Interface (s :: q) = .panic →
      Lookup (.slice t xs) (s :: q) = .panic) := by
  refine ⟨fun val e hfail => ?_, fun hpanic => ?_⟩
  · have hagg : aggreateAggregableValue (.slice t xs) (s :: q) = .ret (.invalid, some e) := by
      rw [aggreate_slice]
      exact aggregateElems_fail (s :: q) e val xs j hj [] hbefore hfail
    refine ⟨?_, hagg⟩
    rw [Lookup_slice t xs s q (parse_ne_panic_of_Lookup hfail), ← aggreate_slice t xs, hagg]
  · by_cases hp : parseIndex s = .panic
    · exact Lookup_cons_panic q (getValueByName_parse_panic hp)
    · rw [Lookup_slice t xs s q hp]
      exact aggregateElems_panic (s :: q) xs j hj [] hbefore hpanic

/-- In `[]interface{}{map[string]int{"a": 1}, 5, 6}` the path `["a"]` succeeds on
the first element and fails on the second with `ErrKeyNotFound`, which is
what the fan-out returns. -/
theorem first_failure_example :
    Lookup (.slice .iface [.iface (.map .string .int [("a", .int 1)]), .iface (.int 5),
        .iface (.int 6)]) ["a"] = .ret (.invalid, some .ErrKeyNotFound) ∧
      aggreateAggregableValue (.slice .iface [.iface (.map .string .int [("a", .int 1)]),
        .iface (.int 5), .iface (.int 6)]) ["a"] = .ret (.invalid, some .ErrKeyNotFound) :=
  (first_failure .iface [.iface (.map .string .int [("a", .int 1)]), .iface (.int 5),
      .iface (.int 6)] "a" [] 1 (by decide)
    (fun i hi => by
      have hi0 : i = 0 := by omega
      subst hi0
      refine ⟨.int 1, ?_⟩
      show Lookup (Value.map .string .int [("a", .int 1)]) ["a"] = .ret (.int 1, none)
      rw [Lookup_cons_ok (i := .map .string .int [("a", .int 1)]) (s := "a") (w := .int 1) _ rfl,
        Lookup_nil])).1
    .invalid .ErrKeyNotFound
    (by
      show Lookup (Value.int 5) ["a"] = .ret (.invalid, some .ErrKeyNotFound)
      exact Lookup_cons_stop (i := .int 5) (s := "a") _ rfl rfl)
/-- C6, evaluation at the failing input: in the sequence
`[]interface{}{T{F: []int{1, 2}, K: 5}, 5}` the path `["B"]` fails on the
second element, the int 5, with `ErrKeyNotFound`, and `Lookup` on the sequence
does not return that error: it panics, because the first element, a struct
without a field `B`, reaches `v.Len()` on a struct. -/
theorem C6_earlier_element_panics :
    (Value.slice .iface structThenInt).WellTyped = true ∧
      Lookup (Value.int 5) ["B"] = .ret (.invalid, some .ErrKeyNotFound) ∧
      Lookup intsRecord ["B"] = .panic ∧
      Lookup (.slice .iface structThenInt) ["B"] = .panic ∧
      aggreateAggregableValue (.slice .iface structThenInt) ["B"] = .panic := by
  have h0 : Lookup intsRecord ["B"] = .panic := by
    rw [Lookup_cons_agg (i := intsRecord) (s := "B") (w := .invalid) (e := .ErrKeyNotFound) _
      rfl rfl]
    exact aggreate_strct _ _ _
  have hagg : aggreateAggregableValue (.slice .iface structThenInt) ["B"] = .panic := by
    rw [aggreate_slice, structThenInt, aggregateElems]
    show (match Lookup intsRecord ["B"] with
      | .panic => Run.panic
      | .ret (_, some err) => Run.ret (Value.invalid, some err)
      | .ret (value, none) =>
        aggregateElems ["B"] [Value.iface (.int 5)] ([] ++ [value])) = Run.panic
    rw [h0]
  refine ⟨by decide, Lookup_cons_stop (i := .int 5) (s := "B") _ rfl rfl, h0, ?_, hagg⟩
  rw [Lookup_slice .iface structThenInt "B" [] (by decide), ← aggreate_slice .iface structThenInt,
    hagg]

/-! ## C7, C8: a segment with an index selector on a field that holds a sequence -/

theorem getValueByName_indexed_field {name : String} {fields : List (String × Value)}
    {F : String} {x : Value} (N : Nat) (hF : NoBracket F) (hN : N ≤ maxInt)
    (hfield : fields.lookup F = some x) :
    getValueByName (.strct name fields) (segment F N) = getValueByName.located x (N : Int) := by
  rw [getValueByName_of_parse (parseIndex_segment N hF hN)]
  simp only [hfield, Option.getD_some]

theorem getValueByName_index_out_of_range (name : String) (fields : List (String × Value))
    (F : String) (t : Ty) (xs : List Value) (N : Nat) (hF : NoBracket F) (hN : N ≤ maxInt)
    (hfield : fields.lookup F = some (.slice t xs)) (hge : xs.length ≤ N) :
    getValueByName (.strct name fields) (segment F N) = .panic := by
  rw [getValueByName_indexed_field N hF hN hfield]
  exact located_slice_ge t xs N hge

/-- C7: for every record whose field `F` holds a sequence `xs` and every index
`i < len(xs)` (a Go `int`), `Lookup(record, "F[i]" :: q)` equals `Lookup(e, q)`
where `e` is `xs[i]` with one level of pointer or interface removed; with `q`
empty the result is `e` itself, without error. -/
theorem C7_indexed_field (name : String) (fields : List (String × Value)) (F : String)
    (t : Ty) (xs : List Value) (i : Nat) (q : List String)
    (hF : NoBracket F) (hfield : fields.lookup F = some (.slice t xs))
    (hi : i < xs.length) (hmax : i ≤ maxInt) :
    Lookup (.strct name fields) (segment F i :: q) = Lookup (xs.get ⟨i, hi⟩).unwrapOnce q ∧
      Lookup (.strct name fields) [segment F i] = .ret ((xs.get ⟨i, hi⟩).unwrapOnce, none) := by
  have h : getValueByName (.strct name fields) (segment F i) =
      .ret ((xs.get ⟨i, hi⟩).unwrapOnce, none) := by
    rw [getValueByName_indexed_field i hF hmax hfield]
    exact located_slice_lt t xs i hi
  exact ⟨Lookup_cons_ok q h, by rw [Lookup_cons_ok [] h, Lookup_nil]⟩

/-- C7, witness: the test `TestAggregableLookup_StructNestedMap`, the segment
`StructSlice[0]` on `structFixture` selects the struct behind the first
pointer of `StructSlice`. -/
theorem C7_indexed_field_witness :
    segment "StructSlice" 0 = "StructSlice[0]" ∧
      Lookup structFixture (segment "StructSlice" 0 :: ["String"]) =
        Lookup (MyStruct "foo" mapFixutre [MyStructLeaf "bar", MyStructLeaf "foo"]) ["String"] ∧
      Lookup structFixture [segment "StructSlice" 0] =
        .ret (MyStruct "foo" mapFixutre [MyStructLeaf "bar", MyStructLeaf "foo"], none) :=
  ⟨by decide,
    C7_indexed_field "MyStruct" (MyStructFields "foo" mapFixutre [structFixture0, structFixture1])
      "StructSlice" (.ptr (.strct "MyStruct")) [structFixture0, structFixture1] 0 ["String"]
      (by decide) rfl (by decide) (by decide)⟩

/-- C8, evaluation at the failing input: on the struct `T{F: []int{1, 2}, K: 5}` the
segment `F[2]` makes the accessor, and so `Lookup`, panic (index out of range
in `value.Index(index)`) instead of returning an error. -/
theorem C8_index_out_of_range_panics :
    intsRecord.WellTyped = true ∧
      getValueByName intsRecord "F[2]" = .panic ∧ Lookup intsRecord ["F[2]"] = .panic :=
  ⟨by decide, rfl, Lookup_cons_panic (i := intsRecord) (s := "F[2]") _ rfl⟩

/-! ## C9: an index selector on a value that is not a sequence -/

/-- C9, evaluation at the failing input: the key `K` resolves on
`T{F: []int{1, 2}, K: 5}` to the int 5, which is not a sequence; on the struct
the segment `K[0]` fails with `ErrInvalidIndexUsage`, and on a pointer to that
struct it does not fail: the accessor returns the int 5, because on a pointer
it calls itself with the key that `parseIndex` returned and loses the index. -/
theorem C9_selector_unchecked_behind_pointer :
    (Value.ptr (.strct "T") intsRecord).WellTyped = true ∧
    getValueByName intsRecord "K" = .ret (.int 5, none) ∧
      getValueByName intsRecord "K[0]" = .ret (.invalid, some .ErrInvalidIndexUsage) ∧
      getValueByName (.ptr (.strct "T") intsRecord) "K[0]" = .ret (.int 5, none) ∧
      getValueByName (.ptr (.strct "T") intsRecord) "K[0]" ≠
        .ret (.invalid, some .ErrInvalidIndexUsage) :=
  ⟨by decide, rfl, rfl, rfl, fun h => by
    rw [show getValueByName (.ptr (.strct "T") intsRecord) "K[0]" = .ret (.int 5, none) from rfl]
      at h
    cases h⟩

/-- An index selector on a value that is not a sequence: for every value `v` that
is itself a record, or a mapping whose key type has kind String, every key `k`
without brackets that `v` holds with a valid value `x` not of kind Slice, and
every index `N` of Go's `int`, the accessor on the segment `k[N]` fails with
`ErrInvalidIndexUsage`. -/
theorem invalid_index_usage (v : Value) (k : String) (x : Value) (N : Nat)
    (hk : NoBracket k) (hN : N ≤ maxInt)
    (hv : (∃ name fields, v = .strct name fields ∧ fields.lookup k = some x) ∨
      (∃ kt et entries, v = .map kt et entries ∧ kt.Kind = .String ∧ entries.lookup k = some x))
    (hx : x.IsValid = true) (hns : x.Kind ≠ .Slice) :
    getValueByName v (segment k N) = .ret (.invalid, some .ErrInvalidIndexUsage) := by
  have hidx : ((N : Nat) : Int) ≠ -1 := by omega
  rcases hv with ⟨name, fields, rfl, hf⟩ | ⟨kt, et, entries, rfl, hkt, hf⟩
  · rw [getValueByName_indexed_field N hk hN hf]
    exact located_notSlice hx hns hidx
  · rw [getValueByName_of_parse (parseIndex_segment N hk hN)]
    simp only [hkt, if_true, hf, Option.getD_some]
    exact located_notSlice hx hns hidx

/-- The segment `K[0]` on the struct `T{F: []int{1, 2}, K: 5}`. -/
theorem invalid_index_usage_example :
    getValueByName intsRecord (segment "K" 0) = .ret (.invalid, some .ErrInvalidIndexUsage) :=
  invalid_index_usage intsRecord "K" (.int 5) 0 (by decide) (by decide)
    (Or.inl ⟨"T", [("F", .slice .int [.int 1, .int 2]), ("K", .int 5)], rfl, rfl⟩) rfl
    (by decide)

/-! ## C10: one step of the traversal -/

/-- C10: when the accessor resolves the segment `s` on `v` to `w` without error,
`Lookup(v, s :: q)` returns exactly what `Lookup(w, q)` returns, the traversal
resumed at the Value `w`; and when `w` is not of kind Interface this is the Go
call `Lookup(w.Interface(), q...)`. -/
theorem C10_step_then_rest (v w : Value) (s : String) (q : List String)
    (h : getValueByName v s = .ret (w, none)) :
    Lookup v (s :: q) = Lookup w q ∧
      (w.Kind ≠ .Interface → Lookup v (s :: q) = Lookup w.Interface q) := by
  refine ⟨Lookup_cons_ok q h, fun hk => ?_⟩
  rw [Lookup_cons_ok q h]
  cases w <;> first | rfl | exact absurd rfl hk

/-- C10, witness: the test `TestLookup_StructPlusMap`, the path `["Map", "foo"]`
on `structFixture` is the path `["foo"]` on its `Map`, the int 42. -/
theorem C10_step_then_rest_witness :
    Lookup structFixture ["Map", "foo"] = Lookup mapFixutre ["foo"] ∧
      Lookup mapFixutre ["foo"] = .ret (.int 42, none) :=
  ⟨(C10_step_then_rest structFixture mapFixutre "Map" ["foo"] rfl).1,
    by rw [Lookup_cons_ok (i := mapFixutre) (s := "foo") (w := .int 42) _ rfl, Lookup_nil]⟩
/-! ## The tests of `lookup_test.go` on the model -/

theorem TestLookup_Map : Lookup mapFixutre ["foo"] = .ret (.int 42, none) := by
  rw [Lookup_cons_ok (i := mapFixutre) (s := "foo") (w := .int 42) _ rfl, Lookup_nil]

theorem TestLookup_Ptr :
    Lookup (.ptr (.strct "MyStruct") structFixture) ["String"] = .ret (.str "foo", none) := by
  rw [Lookup_cons_ok (i := .ptr (.strct "MyStruct") structFixture) (s := "String")
    (w := .str "foo") _ rfl, Lookup_nil]

theorem TestLookup_StructBasic : Lookup structFixture ["String"] = .ret (.str "foo", none) := by
  rw [Lookup_cons_ok (i := structFixture) (s := "String") (w := .str "foo") _ rfl, Lookup_nil]

theorem Lookup_leaf_String (a : String) :
    Lookup (MyStructLeaf a).Interface ["String"] = .ret (.str a, none) := by
  rw [Lookup_cons_ok (i := (MyStructLeaf a).Interface) (s := "String") (w := .str a) _ rfl,
    Lookup_nil]

theorem Lookup_inner_strings (s : String) (m : Value) (a b : String) (part : String)
    (hpart : getValueByName (.ptr (.strct "MyStruct") (MyStruct s m [MyStructLeaf a, MyStructLeaf b]))
      part = .ret (.slice (.ptr (.strct "MyStruct")) [MyStructLeaf a, MyStructLeaf b], none)) :
    Lookup (Value.ptr (.strct "MyStruct") (MyStruct s m [MyStructLeaf a, MyStructLeaf b])).Interface
      [part, "String"] = .ret (.slice .string [.str a, .str b], none) := by
  show Lookup (Value.ptr (.strct "MyStruct") (MyStruct s m [MyStructLeaf a, MyStructLeaf b]))
    [part, "String"] = _
  rw [Lookup_cons_ok _ hpart, Lookup_slice _ _ _ _ (by decide),
    aggregateElems_ok _ (List.Forall₂.cons (Lookup_leaf_String a)
      (List.Forall₂.cons (Lookup_leaf_String b) List.Forall₂.nil))]
  rfl

theorem aggregate_fixture_strings (part : String)
    (h0 : getValueByName structFixture0 part =
      .ret (.slice (.ptr (.strct "MyStruct")) [MyStructLeaf "bar", MyStructLeaf "foo"], none))
    (h1 : getValueByName structFixture1 part =
      .ret (.slice (.ptr (.strct "MyStruct")) [MyStructLeaf "qux", MyStructLeaf "baz"], none)) :
    aggregateElems [part, "String"] [structFixture0, structFixture1] [] =
      .ret (.slice .string [.str "bar", .str "foo", .str "qux", .str "baz"], none) := by
  have hall : List.Forall₂ (fun x r => Lookup x.Interface [part, "String"] = .ret (r, none))
      [structFixture0, structFixture1]
      [.slice .string [.str "bar", .str "foo"], .slice .string [.str "qux", .str "baz"]] :=
    List.Forall₂.cons (Lookup_inner_strings "foo" mapFixutre "bar" "foo" part h0)
      (List.Forall₂.cons (Lookup_inner_strings "qux" mapFixutre "qux" "baz" part h1)
        List.Forall₂.nil)
  rw [aggregateElems_ok _ hall]
  rfl

theorem TestAggregableLookup_StructNested :
    Lookup structFixture ["StructSlice", "StructSlice", "String"] =
      .ret (.slice .string [.str "bar", .str "foo", .str "qux", .str "baz"], none) := by
  rw [Lookup_cons_ok (i := structFixture) (s := "StructSlice")
    (w := .slice (.ptr (.strct "MyStruct")) [structFixture0, structFixture1]) _ rfl,
    Lookup_slice _ _ _ _ (by decide)]
  exact aggregate_fixture_strings "StructSlice" rfl rfl

theorem TestAggregableLookupString_Complex :
    LookupString structFixture "StructSlice.StructSlice[0].String" =
        .ret (.slice .string [.str "bar", .str "foo", .str "qux", .str "baz"], none) ∧
      LookupString structFixture "StructSlice[0].Map.foo" = .ret (.int 42, none) := by
  have hsplit : stringsSplit SplitToken [] "StructSlice.StructSlice[0].String".data =
      ["StructSlice", "StructSlice[0]", "String"] := by decide
  have hsplit2 : stringsSplit SplitToken [] "StructSlice[0].Map.foo".data =
      ["StructSlice[0]", "Map", "foo"] := by decide
  constructor
  · rw [LookupString, hsplit, Lookup_cons_ok (i := structFixture) (s := "StructSlice")
      (w := .slice (.ptr (.strct "MyStruct")) [structFixture0, structFixture1]) _ rfl,
      Lookup_slice _ _ _ _ (by decide)]
    exact aggregate_fixture_strings "StructSlice[0]" rfl rfl
  · rw [LookupString, hsplit2, Lookup_cons_ok (i := structFixture) (s := "StructSlice[0]")
      (w := MyStruct "foo" mapFixutre [MyStructLeaf "bar", MyStructLeaf "foo"]) _ rfl,
      Lookup_cons_ok (i := MyStruct "foo" mapFixutre [MyStructLeaf "bar", MyStructLeaf "foo"])
        (s := "Map") (w := mapFixutre) _ rfl,
      Lookup_cons_ok (i := mapFixutre) (s := "foo") (w := .int 42) _ rfl, Lookup_nil]

theorem TestMergeValue :
    mergeValue [.str "qux", .str "foo"] = .ret (.slice .string [.str "qux", .str "foo"]) := rfl

theorem TestMergeValueSlice :
    mergeValue [.slice .string [.str "foo", .str "bar"], .slice .string [.str "qux", .str "baz"]] =
      .ret (.slice .string [.str "foo", .str "bar", .str "qux", .str "baz"]) := rfl

theorem TestMergeValueZero :
    mergeValue [.invalid, .str "foo"] = .ret (.slice .string [.str "foo"]) := rfl

theorem TestParseIndex : parseIndex "foo[42]" = .ret ("foo", 42, none) := by decide

theorem TestParseIndexNooIndex : parseIndex "foo" = .ret ("foo", -1, none) := by decide

theorem TestParseIndexMalFormed :
    parseIndex "foo[]" = .ret ("", -1, some .ErrMalformedIndex) ∧
      parseIndex "foo[42" = .ret ("", -1, some .ErrMalformedIndex) ∧
      parseIndex "foo42]" = .ret ("", -1, some .ErrMalformedIndex) := by decide
/-! ## C11: the value returned with an error -/

theorem located_err_invalid {x w : Value} {index : Int} {e : Error}
    (h : getValueByName.located x index = .ret (w, some e)) : w = .invalid := by
  simp only [getValueByName.located] at h
  split at h
  · cases h; rfl
  · split at h
    · cases h
    · rename_i hidx
      cases h
      split at hidx
      · split at hidx
        · cases hidx
        · split at hidx
          · cases hidx; rfl
          · split at hidx <;> cases hidx
      · cases hidx
    · split at h
      · split at h <;> cases h
      · cases h

theorem getValueByName_err_invalid :
    ∀ (v : Value) (s : String) {w : Value} {e : Error},
      getValueByName v s = .ret (w, some e) → w = .invalid := by
  intro v s
  induction v, s using getValueByName.induct with
  | case1 t key hp =>
    intro w e h
    rw [getValueByName_parse_panic hp] at h
    cases h
  | case2 t key k idx err hp =>
    intro w e h
    rw [getValueByName_parse_err hp] at h
    cases h
    rfl
  | case3 key k idx hp elem target ih =>
    intro w e h
    rw [getValueByName_of_parse hp] at h
    exact ih h
  | case4 key k idx hp dyn ih =>
    intro w e h
    rw [getValueByName_of_parse hp] at h
    exact ih h
  | case5 key k idx hp name fields hf =>
    intro w e h
    rw [getValueByName_of_parse hp] at h
    exact located_err_invalid h
  | case6 key k idx hp name fields x hf =>
    intro w e h
    rw [getValueByName_of_parse hp] at h
    exact located_err_invalid h
  | case7 key k idx hp kt et entries hf =>
    intro w e h
    rw [getValueByName_of_parse hp] at h
    simp only at h
    split at h
    · exact located_err_invalid h
    · cases h
  | case8 key k idx hp kt et entries x hf =>
    intro w e h
    rw [getValueByName_of_parse hp] at h
    simp only at h
    split at h
    · exact located_err_invalid h
    · cases h
  | case9 t key k idx hp h1 h2 h3 h4 =>
    intro w e h
    rw [getValueByName_of_parse hp] at h
    cases t with
    | ptr a b => exact absurd rfl (h1 a b)
    | iface a => exact absurd rfl (h2 a)
    | strct a b => exact absurd rfl (h3 a b)
    | map a b c => exact absurd rfl (h4 a b c)
    | _ => exact located_err_invalid h

theorem aggLoop_err_invalid (v : Value) (path : List String) (l : Nat) :
    ∀ (k i : Nat) (values : List Value) {w : Value} {e : Error}, k = l - i →
      aggreateAggregableValue.loop v path l i values = .ret (w, some e) → w = .invalid := by
  intro k
  induction k with
  | zero =>
    intro i values w e hk h
    have hi : ¬ i < l := by omega
    rw [aggreateAggregableValue.loop] at h
    simp only [hi, if_false] at h
    split at h <;> cases h
  | succ k ih =>
    intro i values w e hk h
    have hi : i < l := by omega
    rw [aggreateAggregableValue.loop] at h
    simp only [hi, if_true] at h
    split at h
    · cases h
    · split at h
      · cases h
      · cases h; rfl
      · exact ih (i + 1) _ (by omega) h

theorem aggreate_err_invalid {v : Value} {path : List String} {w : Value} {e : Error}
    (h : aggreateAggregableValue v path = .ret (w, some e)) : w = .invalid := by
  rw [aggreateAggregableValue] at h
  split at h
  · cases h
  · rename_i l _
    exact aggLoop_err_invalid v path l (l - 0) 0 [] rfl h

/-- C11: whenever `Lookup` returns an error, the Value it returns with it is the
zero Value. -/
theorem C11_error_with_zero_value (v : Value) (path : List String) (w : Value) (e : Error)
    (h : Lookup v path = .ret (w, some e)) : w = .invalid := by
  induction path generalizing v with
  | nil =>
    rw [Lookup_nil] at h
    cases h
  | cons s q ih =>
    cases hg : getValueByName v s with
    | panic =>
      rw [Lookup_cons_panic q hg] at h
      cases h
    | ret r =>
      obtain ⟨x, err⟩ := r
      cases err with
      | none =>
        rw [Lookup_cons_ok q hg] at h
        exact ih x h
      | some e2 =>
        cases hagg : isAggregable v with
        | false =>
          rw [Lookup_cons_stop q hg hagg] at h
          cases h
          exact getValueByName_err_invalid v s hg
        | true =>
          rw [Lookup_cons_agg q hg hagg] at h
          exact aggreate_err_invalid h

/-- C11, witness: `Lookup(5, ["a"])` fails with `ErrKeyNotFound`, and the Value
returned with it is the zero Value. -/
theorem C11_error_with_zero_value_witness :
    Lookup (.int 5) ["a"] = .ret (.invalid, some .ErrKeyNotFound) ∧ Value.invalid = .invalid :=
  ⟨Lookup_cons_stop (i := .int 5) (s := "a") _ rfl rfl,
    C11_error_with_zero_value (.int 5) ["a"] .invalid .ErrKeyNotFound
      (Lookup_cons_stop (i := .int 5) (s := "a") _ rfl rfl)⟩
/-! ## C12 to C15: the segment parser -/

theorem parseIndex_bracketed {s : String} {key mid t : List Char}
    (hs : s.data = key ++ '[' :: (mid ++ ']' :: t))
    (hopen : IndexOpenChar ∉ key) (hclose : IndexCloseChar ∉ key)
    (hmid : IndexCloseChar ∉ mid) :
    parseIndex s =
      match Atoi mid with
      | none => .ret ("", -1, some .ErrMalformedIndex)
      | some index => .ret (String.mk key, index, none) := by
  have hmemo : IndexOpenChar ∈ s.data := by simp [hs, IndexOpenChar]
  have hmemc : IndexCloseChar ∈ s.data := by simp [hs, IndexCloseChar]
  have hstart : stringsIndex s.data IndexOpenChar = (key.length : Nat) := by
    rw [stringsIndex_of_mem hmemo, hs]
    exact congrArg _ (indexOf_append_cons hopen _)
  have hnot : IndexCloseChar ∉ key ++ '[' :: mid := by
    intro h
    rcases List.mem_append.mp h with h | h
    · exact hclose h
    · rcases List.mem_cons.mp h with h | h
      · exact absurd h (by decide)
      · exact hmid h
  have hdata : s.data = (key ++ '[' :: mid) ++ ']' :: t := by simp [hs]
  have hend : stringsIndex s.data IndexCloseChar = ((key.length + 1 + mid.length : Nat) : Int) := by
    rw [stringsIndex_of_mem hmemc, hdata]
    have h2 := indexOf_append_cons hnot t
    simp only [List.length_append, List.length_cons] at h2
    have h3 : List.indexOf IndexCloseChar ((key ++ '[' :: mid) ++ ']' :: t) =
        key.length + (mid.length + 1) := h2
    rw [h3]
    congr 1
    omega
  have hs1 : sliceString s.data ((key.length : Nat) + 1)
      ((key.length + 1 + mid.length : Nat) : Int) = .ret mid := by
    have hcond : (0 : Int) ≤ (key.length : Nat) + 1 ∧
        ((key.length : Nat) : Int) + 1 ≤ ((key.length + 1 + mid.length : Nat) : Int) ∧
        ((key.length + 1 + mid.length : Nat) : Int) ≤ (s.data.length : Nat) := by
      rw [hs]
      simp only [List.length_append, List.length_cons]
      omega
    rw [sliceString, if_pos hcond, hdata]
    have e1 : ((key.length + 1 + mid.length : Nat) : Int).toNat = (key ++ '[' :: mid).length := by
      simp only [Int.toNat_ofNat, List.length_append, List.length_cons]
      omega
    have e2 : (((key.length : Nat) : Int) + 1).toNat = (key ++ ['[']).length := by
      simp only [List.length_append, List.length_cons, List.length_nil]
      omega
    have e4 : key ++ '[' :: mid = (key ++ ['[']) ++ mid := by simp
    rw [e1, List.take_left, e2, e4, List.drop_left]
  have hs2 : sliceString s.data 0 ((key.length : Nat) : Int) = .ret key := by
    have hcond : (0 : Int) ≤ 0 ∧ (0 : Int) ≤ ((key.length : Nat) : Int) ∧
        ((key.length : Nat) : Int) ≤ (s.data.length : Nat) := by
      rw [hs]
      simp only [List.length_append, List.length_cons]
      omega
    rw [sliceString, if_pos hcond, hs]
    simp
  have c1 : ¬ (((key.length : Nat) : Int) = -1 ∧
      ((key.length + 1 + mid.length : Nat) : Int) = -1) := by omega
  have c2 : ¬ ((((key.length : Nat) : Int) ≠ -1 ∧
      ((key.length + 1 + mid.length : Nat) : Int) = -1) ∨
      (((key.length : Nat) : Int) = -1 ∧
      ((key.length + 1 + mid.length : Nat) : Int) ≠ -1)) := by omega
  unfold parseIndex
  simp only [hstart, hend, hs1, hs2]
  rw [if_neg c1, if_neg c2]

theorem parseIndex_segment_trailing (key : String) (N : Nat) (t : String) (hkey : NoBracket key) :
    parseIndex (segment key N ++ t) = parseIndex (segment key N) := by
  obtain ⟨hall, _, _⟩ := toString_digits N
  have hmid : IndexCloseChar ∉ (toString N).data :=
    fun h => (isDigit_ne_bracket (hall _ h)).2.1 rfl
  have h1 : (segment key N ++ t).data =
      key.data ++ '[' :: ((toString N).data ++ ']' :: t.data) := by
    simp [segment_data, String.data_append]
  have h2 : (segment key N).data = key.data ++ '[' :: ((toString N).data ++ ']' :: []) := by
    simp [segment_data]
  rw [parseIndex_bracketed h1 hkey.1 hkey.2 hmid, parseIndex_bracketed h2 hkey.1 hkey.2 hmid]

/-- C12: for every key without brackets and every `N` in the range of Go's `int`,
`parseIndex` of the segment `key[N]` is `(key, N, nil)`, and `parseIndex` of
the bare key is `(key, -1, nil)`, with -1 for no index. -/
theorem C12_parse_inverts_format (key : String) (N : Nat) (hkey : NoBracket key)
    (hN : N ≤ maxInt) :
    parseIndex (segment key N) = .ret (key, (N : Int), none) ∧
      parseIndex key = .ret (key, -1, none) :=
  ⟨parseIndex_segment N hkey hN, parseIndex_noBracket hkey⟩

/-- C12, witness: the tests `TestParseIndex` and `TestParseIndexNooIndex`, the
segment `foo[42]` and the bare key `foo`. -/
theorem C12_parse_inverts_format_witness :
    segment "foo" 42 = "foo[42]" ∧
      parseIndex (segment "foo" 42) = .ret ("foo", ((42 : Nat) : Int), none) ∧
      parseIndex "foo" = .ret ("foo", -1, none) :=
  ⟨by decide, C12_parse_inverts_format "foo" 42 (by decide) (by decide)⟩

/-- C14: a segment that contains `[` but no `]`, or `]` but no `[`, makes
`parseIndex` return the empty key, the index -1 and `ErrMalformedIndex`. -/
theorem C14_unbalanced_bracket (s : String)
    (h : (IndexOpenChar ∈ s.data ∧ IndexCloseChar ∉ s.data) ∨
      (IndexOpenChar ∉ s.data ∧ IndexCloseChar ∈ s.data)) :
    parseIndex s = .ret ("", -1, some .ErrMalformedIndex) := by
  have hnat : ∀ n : Nat, ((n : Nat) : Int) ≠ -1 := fun n => by omega
  rcases h with ⟨ho, hc⟩ | ⟨ho, hc⟩
  · unfold parseIndex
    simp [stringsIndex_of_mem ho, stringsIndex_of_not_mem hc, hnat]
  · unfold parseIndex
    simp [stringsIndex_of_not_mem ho, stringsIndex_of_mem hc, hnat]

/-- C14, witness: the test `TestParseIndexMalFormed`, the segment `foo[42`. -/
theorem C14_unbalanced_bracket_witness :
    parseIndex "foo[42" = .ret ("", -1, some .ErrMalformedIndex) :=
  C14_unbalanced_bracket "foo[42" (Or.inl (by decide))

/-- C15, counterexample: with `N = 2^63`, one more than the largest `int`, the
segment `a[9223372036854775808]` is rejected with `ErrMalformedIndex`, with or
without trailing text, instead of giving `(a, N, nil)`. -/
theorem C15_out_of_range_counterexample :
    segment "a" (2 ^ 63) = "a[9223372036854775808]" ∧
      parseIndex (segment "a" (2 ^ 63)) = .ret ("", -1, some .ErrMalformedIndex) ∧
      parseIndex (segment "a" (2 ^ 63) ++ "bar") = .ret ("", -1, some .ErrMalformedIndex) ∧
      parseIndex (segment "a" (2 ^ 63)) ≠ .ret ("a", ((2 ^ 63 : Nat) : Int), none) := by
  decide

/-- C15, amended: for every key without brackets, every natural number `N` and
every trailing string `t` (brackets included), `parseIndex` gives the same on
`key[N]` followed by `t` as on `key[N]`; and for `N` in the range of Go's
`int` both are `(key, N, nil)`. -/
theorem C15_trailing_ignored (key : String) (N : Nat) (t : String) (hkey : NoBracket key) :
    parseIndex (segment key N ++ t) = parseIndex (segment key N) ∧
      (N ≤ maxInt → parseIndex (segment key N ++ t) = .ret (key, (N : Int), none) ∧
        parseIndex (segment key N) = .ret (key, (N : Int), none)) := by
  have h := parseIndex_segment_trailing key N t hkey
  refine ⟨h, fun hN => ?_⟩
  rw [h]
  exact ⟨parseIndex_segment N hkey hN, parseIndex_segment N hkey hN⟩

/-- C15, witness: the segment `foo[1]` followed by `bar]x[`. -/
theorem C15_trailing_ignored_witness :
    segment "foo" 1 ++ "bar]x[" = "foo[1]bar]x[" ∧
      parseIndex (segment "foo" 1 ++ "bar]x[") = .ret ("foo", ((1 : Nat) : Int), none) :=
  ⟨by decide, ((C15_trailing_ignored "foo" 1 "bar]x[" (by decide)).2 (by decide)).1⟩
/-- C13, evaluation at failing inputs: `parseIndex` accepts a negative number
between the brackets, so `a[-1]` parses without error to the index -1, the
same result as the bare key `a`, and `a[-5]` to the index -5; and it panics
on `]a[`, where `]` stands before `[`.  In the accessor the selector `[-1]` is
then ignored and `[-5]` makes `value.Index` panic. -/
theorem C13_negative_index_accepted :
    parseIndex "a[-1]" = .ret ("a", -1, none) ∧
      parseIndex "a" = .ret ("a", -1, none) ∧
      parseIndex "a[-5]" = .ret ("a", -5, none) ∧
      parseIndex "]a[" = .panic ∧
      getValueByName intsRecord "F[-1]" = .ret (.slice .int [.int 1, .int 2], none) ∧
      getValueByName intsRecord "F[-5]" = .panic :=
  ⟨by decide, by decide, by decide, by decide, rfl, rfl⟩

/-! ## C16, C17: merging -/

theorem mergeLoop_appendSlice (et : Ty) :
    ∀ (xss : List (List Value)) (acc : List Value),
      mergeValue.loop true (.slice et acc) (xss.map (Value.slice et)) =
        .ret (.slice et (acc ++ xss.flatten)) := by
  intro xss
  induction xss with
  | nil => intro acc; simp [mergeValue.loop]
  | cons xs xss ih =>
    intro acc
    rw [List.map_cons, mergeValue.loop]
    simp only [Value.IsValid, Bool.not_true, Bool.false_eq_true, if_false, if_true,
      reflectAppendSlice]
    rw [ih]
    simp

theorem mergeValue_slices (et : Ty) (xss : List (List Value)) (hne : xss ≠ []) :
    mergeValue (xss.map (Value.slice et)) = .ret (.slice et xss.flatten) := by
  have hfilter : removeZeroValues (xss.map (Value.slice et)) = xss.map (Value.slice et) := by
    rw [removeZeroValues, List.filter_eq_self]
    intro r hr
    obtain ⟨xs, _, rfl⟩ := List.mem_map.mp hr
    rfl
  cases xss with
  | nil => exact absurd rfl hne
  | cons xs xss =>
    rw [mergeValue, hfilter]
    simp only [List.map_cons, isMergeable, Value.Kind, Value.Type, Ty.Elem]
    have := mergeLoop_appendSlice et (xs :: xss) []
    simpa using this

theorem Type_eq_slice {v : Value} {et : Ty} (h : v.Type = .ret (.slice et)) :
    ∃ xs, v = .slice et xs := by
  cases v <;> simp [Value.Type] at h
  rename_i e xs
  exact ⟨xs, by rw [h]⟩

/-- C16, evaluation at the failing input: one result that is a map,
`map[string]int{"a": 1}`, and two of them, make `mergeValue` panic
(`reflect.AppendSlice` on a map) instead of giving the sequence of the
results. -/
theorem C16_merge_maps_panics :
    Value.WellTyped (.map .string .int [("a", .int 1)]) = true ∧
      mergeValue [.map .string .int [("a", .int 1)]] = .panic ∧
      mergeValue [.map .string .int [("a", .int 1)], .map .string .int [("b", .int 2)]] =
        .panic :=
  ⟨by decide, rfl, rfl⟩

/-- C17: `mergeValue` gives the same on a list as on the list without its
invalid entries, and on a list whose entries are all invalid (the empty list
included) it returns the zero Value, without panic. -/
theorem C17_merge_ignores_invalid (vs : List Value) :
    mergeValue vs = mergeValue (vs.filter Value.IsValid) ∧
      ((∀ v ∈ vs, v.IsValid = false) → mergeValue vs = .ret .invalid) := by
  constructor
  · simp only [mergeValue, removeZeroValues, List.filter_filter, Bool.and_self]
  · intro h
    have hnil : removeZeroValues vs = [] := by
      rw [removeZeroValues, List.filter_eq_nil_iff]
      intro v hv
      simp [h v hv]
    simp only [mergeValue, hnil]
/-! ## C18: a malformed segment -/

theorem Lookup_resolves {v u : Value} {pre : List String} (h : Resolves v pre u)
    (p : List String) : Lookup v (pre ++ p) = Lookup u p := by
  induction h with
  | nil v => rfl
  | cons hstep _ ih =>
    rw [List.cons_append, Lookup_cons_ok _ hstep]
    exact ih

theorem Lookup_surfaces {s key : String} {index : Int} {e : Error}
    (hparse : parseIndex s = .ret (key, index, some e)) (q : List String) {v : Value}
    (h : Surfaces v) : Lookup v (s :: q) = .ret (.invalid, some e) := by
  induction h with
  | leaf v hagg => exact Lookup_cons_stop q (getValueByName_parse_err hparse) hagg
  | fan t xs hne helems ih =>
    have hne2 : parseIndex s ≠ .panic := by
      rw [hparse]
      intro hc
      cases hc
    rw [Lookup_slice t xs s q hne2]
    cases xs with
    | nil => exact absurd rfl hne
    | cons x xs => rw [aggregateElems, ih x (by simp)]

/-- C18, counterexample: `parseIndex` rejects the segment `a[`, and on the empty
sequence `[]int{}` `Lookup` with the path `["a["]` returns the zero Value and
no error; the same after the field `F` of `E{F: []int{}}` has resolved. -/
theorem C18_swallowed_counterexample :
    parseIndex "a[" = .ret ("", -1, some .ErrMalformedIndex) ∧
      Lookup (.slice .int []) ["a["] = .ret (.invalid, none) ∧
      Lookup (.strct "E" [("F", .slice .int [])]) ["F", "a["] = .ret (.invalid, none) := by
  have h : Lookup (.slice .int []) ["a["] = .ret (.invalid, none) := by
    rw [Lookup_slice .int [] "a[" [] (by decide)]
    rfl
  refine ⟨by decide, h, ?_⟩
  rw [Lookup_cons_ok (i := .strct "E" [("F", .slice .int [])]) (s := "F")
    (w := .slice .int []) _ rfl]
  exact h

/-- C18, amended: when the segments `pre` resolve directly from `v` to `w`, the
next segment `s` is rejected by `parseIndex`, and `w` is not a record or a
mapping and every sequence reached by fan-out is non-empty (`Surfaces`),
`Lookup(v, pre ++ s :: q)` fails with `ErrMalformedIndex` and the zero
Value. -/
theorem C18_malformed_surfaces (v w : Value) (pre : List String) (s : String)
    (q : List String) (hpre : Resolves v pre w)
    (hrej : parseIndex s = .ret ("", -1, some .ErrMalformedIndex)) (hsurf : Surfaces w) :
    Lookup v (pre ++ s :: q) = .ret (.invalid, some .ErrMalformedIndex) := by
  rw [Lookup_resolves hpre]
  exact Lookup_surfaces hrej q hsurf

/-- C18, witness: on `structFixture` the segment `String` resolves to the string
`foo`, and the next segment `x[` is malformed. -/
theorem C18_malformed_surfaces_witness :
    Lookup structFixture (["String"] ++ "x[" :: ["y"]) =
      .ret (.invalid, some .ErrMalformedIndex) :=
  C18_malformed_surfaces structFixture (.str "foo") ["String"] "x[" ["y"]
    (Resolves.cons (s := "String") (w := .str "foo") rfl (Resolves.nil _)) (by decide)
    (Surfaces.leaf _ rfl)
/-! ## C19: an index selector behind a pointer or an interface -/

theorem getValueByName_wrapper_index {v : Value} (hv : v.Kind = .Ptr ∨ v.Kind = .Interface)
    {k : String} (hk : NoBracket k) {N : Nat} (hN : N ≤ maxInt) :
    getValueByName v (segment k N) = getValueByName v k := by
  rw [getValueByName_of_parse (parseIndex_segment N hk hN),
    getValueByName_of_parse (parseIndex_noBracket hk)]
  cases v <;> first | rfl | (rcases hv with h | h <;> cases h)

theorem isAggregable_wrapper {v : Value} (hv : v.Kind = .Ptr ∨ v.Kind = .Interface) :
    isAggregable v = false := by
  cases v <;> first | rfl | (rcases hv with h | h <;> cases h)

theorem Lookup_congr_first {v : Value} {s s' : String} (q : List String)
    (hagg : isAggregable v = false) (h : getValueByName v s = getValueByName v s') :
    Lookup v (s :: q) = Lookup v (s' :: q) := by
  cases hg : getValueByName v s' with
  | panic =>
    rw [Lookup_cons_panic q hg, Lookup_cons_panic q (h.trans hg)]
  | ret r =>
    obtain ⟨w, err⟩ := r
    cases err with
    | none => rw [Lookup_cons_ok q hg, Lookup_cons_ok q (h.trans hg)]
    | some e => rw [Lookup_cons_stop q hg hagg, Lookup_cons_stop q (h.trans hg) hagg]

/-- C19, counterexample: on a pointer to `T{F: []int{1, 2}, K: 5}` the segment
`K[9223372036854775808]`, whose index is one more than the largest `int`, is
rejected with `ErrMalformedIndex`, while the bare key `K` gives the int 5. -/
theorem C19_out_of_range_counterexample :
    segment "K" (2 ^ 63) = "K[9223372036854775808]" ∧
      Lookup (.ptr (.strct "T") intsRecord) [segment "K" (2 ^ 63)] =
        .ret (.invalid, some .ErrMalformedIndex) ∧
      Lookup (.ptr (.strct "T") intsRecord) ["K"] = .ret (.int 5, none) := by
  refine ⟨by decide, ?_, ?_⟩
  · exact Lookup_cons_stop (i := .ptr (.strct "T") intsRecord) (s := segment "K" (2 ^ 63)) _
      (@getValueByName_parse_err _ _ "" (-1) _ (by decide)) rfl
  · rw [Lookup_cons_ok (i := .ptr (.strct "T") intsRecord) (s := "K") (w := .int 5) _ rfl,
      Lookup_nil]

/-- C19, amended: for every root `v` of kind Ptr or Interface, every key `k`
without brackets, every index `N` in the range of Go's `int` and every path
`q`, `Lookup(v, "k[N]" :: q)` equals `Lookup(v, k :: q)`, and the accessor
returns the same for `k[N]` as for `k`. -/
theorem C19_index_ignored (v : Value) (k : String) (N : Nat) (q : List String)
    (hv : v.Kind = .Ptr ∨ v.Kind = .Interface) (hk : NoBracket k) (hN : N ≤ maxInt) :
    getValueByName v (segment k N) = getValueByName v k ∧
      Lookup v (segment k N :: q) = Lookup v (k :: q) :=
  ⟨getValueByName_wrapper_index hv hk hN,
    Lookup_congr_first q (isAggregable_wrapper hv) (getValueByName_wrapper_index hv hk hN)⟩

/-- C19, witness: on the first element of `structFixture.StructSlice`, a pointer
to a `MyStruct`, the segment `StructSlice[0]` gives the same as `StructSlice`,
the strings of both inner elements; and on `structFixture` the path
`StructSlice.StructSlice[0].String` gives the same flattened sequence of all
four inner strings as `StructSlice.StructSlice.String` (the tests
`TestAggregableLookupString_Complex` and `TestAggregableLookup_StructNested`). -/
theorem C19_index_ignored_witness :
    (segment "StructSlice" 0 = "StructSlice[0]" ∧
      Lookup structFixture0 (segment "StructSlice" 0 :: ["String"]) =
        Lookup structFixture0 ("StructSlice" :: ["String"])) ∧
      LookupString structFixture "StructSlice.StructSlice[0].String" =
        LookupString structFixture "StructSlice.StructSlice.String" ∧
      LookupString structFixture "StructSlice.StructSlice.String" =
        .ret (.slice .string [.str "bar", .str "foo", .str "qux", .str "baz"], none) := by
  have hnested : LookupString structFixture "StructSlice.StructSlice.String" =
      .ret (.slice .string [.str "bar", .str "foo", .str "qux", .str "baz"], none) := by
    have hsplit : stringsSplit SplitToken [] "StructSlice.StructSlice.String".data =
        ["StructSlice", "StructSlice", "String"] := by decide
    rw [LookupString, hsplit]
    exact TestAggregableLookup_StructNested
  exact ⟨⟨by decide,
    (C19_index_ignored structFixture0 "StructSlice" 0 ["String"] (Or.inl rfl) (by decide)
      (by decide)).2⟩,
    TestAggregableLookupString_Complex.1.trans hnested.symm, hnested⟩
/-! ## C20: termination -/

theorem mem_of_lookup {k : String} {x : Value} :
    ∀ {l : List (String × Value)}, l.lookup k = some x → (k, x) ∈ l := by
  intro l
  induction l with
  | nil => intro h; cases h
  | cons a l ih =>
    intro h
    obtain ⟨k2, y⟩ := a
    by_cases hk : k = k2
    · subst hk
      simp only [List.lookup, beq_self_eq_true] at h
      cases h
      exact List.mem_cons_self _ _
    · have hb : (k == k2) = false := by simpa using hk
      simp only [List.lookup, hb] at h
      exact List.mem_cons_of_mem _ (ih h)

theorem Child_sizeOf {c p : Value} (h : Value.Child c p) : sizeOf c < sizeOf p := by
  cases h with
  | field h =>
    have h1 := List.sizeOf_lt_of_mem h
    simp only [Value.strct.sizeOf_spec, Prod.mk.sizeOf_spec] at *
    omega
  | entry h =>
    have h1 := List.sizeOf_lt_of_mem h
    simp only [Value.map.sizeOf_spec, Prod.mk.sizeOf_spec] at *
    omega
  | elem h =>
    have h1 := List.sizeOf_lt_of_mem h
    simp only [Value.slice.sizeOf_spec]
    omega
  | target t c =>
    simp only [Value.ptr.sizeOf_spec]
    omega
  | dyn c =>
    simp only [Value.iface.sizeOf_spec]
    omega

theorem StrictSub_sizeOf {c p : Value} (h : StrictSub c p) : sizeOf c < sizeOf p := by
  induction h with
  | single h => exact Child_sizeOf h
  | tail _ h ih => exact Nat.lt_trans ih (Child_sizeOf h)

theorem unwrapOnce_sub (x : Value) : Relation.ReflTransGen Value.Child x.unwrapOnce x := by
  cases x with
  | ptr t c => exact Relation.ReflTransGen.single (Value.Child.target t c)
  | iface c => exact Relation.ReflTransGen.single (Value.Child.dyn c)
  | _ => exact Relation.ReflTransGen.refl

theorem Interface_sub (x : Value) : Relation.ReflTransGen Value.Child x.Interface x := by
  cases x with
  | iface c => exact Relation.ReflTransGen.single (Value.Child.dyn c)
  | _ => exact Relation.ReflTransGen.refl

theorem Index_child {v e : Value} {i : Int} (h : v.Index i = .ret e) : Value.Child e v := by
  cases v <;> simp only [Value.Index] at h <;> try cases h
  split at h
  · split at h
    · rename_i hx
      cases h
      exact Value.Child.elem (List.get?_mem hx)
    · cases h
  · cases h

theorem located_slice_index (t : Ty) (xs : List Value) {index : Int} (hi : index ≠ -1) :
    getValueByName.located (.slice t xs) index =
      match (Value.slice t xs).Index index with
      | .panic => .panic
      | .ret e => .ret (e.unwrapOnce, none) := by
  simp only [getValueByName.located, Value.IsValid, Value.Type, Ty.Kind, ne_eq, hi,
    not_false_eq_true, if_true, not_true_eq_false, if_false, Bool.not_true, Bool.false_eq_true]
  cases (Value.slice t xs).Index index with
  | panic => rfl
  | ret e => cases e <;> simp [Value.Kind, Value.Elem, Value.unwrapOnce]

theorem located_sub {x w : Value} {index : Int}
    (h : getValueByName.located x index = .ret (w, none)) :
    Relation.ReflTransGen Value.Child w x := by
  by_cases hv : x.IsValid = true
  · by_cases hi : index = -1
    · subst hi
      rw [located_noIndex hv] at h
      cases h
      exact unwrapOnce_sub x
    · by_cases hk : x.Kind = .Slice
      · cases x <;> simp only [Value.Kind] at hk <;> try cases hk
        rename_i t xs
        rw [located_slice_index t xs hi] at h
        cases hidx : (Value.slice t xs).Index index with
        | panic =>
          rw [hidx] at h
          cases h
        | ret e =>
          rw [hidx] at h
          cases h
          exact (unwrapOnce_sub e).trans (Relation.ReflTransGen.single (Index_child hidx))
      · rw [located_notSlice hv hk hi] at h
        cases h
  · have hx : x = .invalid := by
      cases x <;> simp [Value.IsValid] at hv
      rfl
    subst hx
    rw [located_invalid] at h
    cases h

theorem getValueByName_sub :
    ∀ (v : Value) (s : String) {w : Value},
      getValueByName v s = .ret (w, none) → StrictSub w v := by
  intro v s
  induction v, s using getValueByName.induct with
  | case1 t key hp =>
    intro w h
    rw [getValueByName_parse_panic hp] at h
    cases h
  | case2 t key k idx err hp =>
    intro w h
    rw [getValueByName_parse_err hp] at h
    cases h
  | case3 key k idx hp elem target ih =>
    intro w h
    rw [getValueByName_of_parse hp] at h
    exact Relation.TransGen.tail (ih h) (Value.Child.target elem target)
  | case4 key k idx hp dyn ih =>
    intro w h
    rw [getValueByName_of_parse hp] at h
    exact Relation.TransGen.tail (ih h) (Value.Child.dyn dyn)
  | case5 key k idx hp name fields hf =>
    intro w h
    simp [Value.FieldByName] at hf
  | case6 key k idx hp name fields x hf =>
    intro w h
    rw [getValueByName_of_parse hp] at h
    simp only at h
    cases hl : fields.lookup k with
    | none =>
      rw [hl, Option.getD_none, located_invalid] at h
      cases h
    | some y =>
      rw [hl, Option.getD_some] at h
      exact Relation.TransGen.trans_right (located_sub h)
        (Relation.TransGen.single (Value.Child.field (mem_of_lookup hl)))
  | case7 key k idx hp kt et entries hf =>
    intro w h
    rw [getValueByName_of_parse hp] at h
    simp only at h
    simp only [Value.MapIndexString] at hf
    split at hf
    · cases hf
    · rename_i hkt
      rw [if_neg hkt] at h
      cases h
  | case8 key k idx hp kt et entries x hf =>
    intro w h
    rw [getValueByName_of_parse hp] at h
    simp only at h
    split at h
    · cases hl : entries.lookup k with
      | none =>
        rw [hl, Option.getD_none, located_invalid] at h
        cases h
      | some y =>
        rw [hl, Option.getD_some] at h
        exact Relation.TransGen.trans_right (located_sub h)
          (Relation.TransGen.single (Value.Child.entry (mem_of_lookup hl)))
    · cases h
  | case9 t key k idx hp h1 h2 h3 h4 =>
    intro w h
    rw [getValueByName_of_parse hp] at h
    cases t with
    | ptr a b => exact absurd rfl (h1 a b)
    | iface a => exact absurd rfl (h2 a)
    | strct a b => exact absurd rfl (h3 a b)
    | map a b c => exact absurd rfl (h4 a b c)
    | _ =>
      simp only [located_invalid] at h
      cases h

theorem Resolves_sub {v u : Value} {pre : List String} (h : Resolves v pre u) :
    Relation.ReflTransGen Value.Child u v := by
  induction h with
  | nil v => exact Relation.ReflTransGen.refl
  | cons hstep _ ih =>
    exact ih.trans (Relation.TransGen.to_reflTransGen (getValueByName_sub _ _ hstep))

theorem Recurses_sub {a b : Value × List String} (h : Recurses a b) : StrictSub b.1 a.1 := by
  cases h with
  | call hpre hfail hagg hidx =>
    exact Relation.TransGen.trans_left
      (Relation.TransGen.trans_right (Interface_sub _) (Relation.TransGen.single (Index_child hidx)))
      (Resolves_sub hpre)
theorem Recurses_wf : WellFounded (fun b a : Value × List String => Recurses a b) :=
  Subrelation.wf (fun {b a} (h : Recurses a b) => StrictSub_sizeOf (Recurses_sub h))
    (InvImage.wf (fun a : Value × List String => sizeOf a.1) Nat.lt_wfRel.wf)

/-- C20: `Lookup` is a total function (on every value and path it returns or
panics), and its recursion descends on the value.  (1) The accessor, on a
pointer or an interface, calls itself on a strict sub-value.  (2) When a
prefix of the path has resolved to `parent`, the next segment fails and
`parent` is aggregable, `Lookup` is the aggregator on `parent` and the rest of
the path, whose loop calls `Lookup` on the elements of `parent`.  (3) In every
such recursive call the value is a strict sub-value of the caller's, (4) also
when the very first segment failed and the path is passed on unshortened.
(5) A strict sub-value has a smaller size, so (6) the call relation is
well-founded. -/
theorem C20_recursion_descends :
    (∀ (v : Value) (p : List String),
      Lookup v p = .panic ∨ ∃ w e, Lookup v p = .ret (w, e)) ∧
    (∀ (t : Ty) (x : Value), StrictSub x (.ptr t x) ∧ StrictSub x (.iface x)) ∧
    (∀ (v parent w : Value) (pre : List String) (s : String) (q : List String) (err : Error),
      Resolves v pre parent → getValueByName parent s = .ret (w, some err) →
      isAggregable parent = true →
      Lookup v (pre ++ s :: q) = aggreateAggregableValue parent (s :: q)) ∧
    (∀ a b, Recurses a b → StrictSub b.1 a.1) ∧
    (∀ (v w e : Value) (s : String) (q : List String) (err : Error) (i : Nat),
      getValueByName v s = .ret (w, some err) → isAggregable v = true →
      v.Index (i : Int) = .ret e →
      Recurses (v, s :: q) (e.Interface, s :: q) ∧ StrictSub e.Interface v) ∧
    (∀ c p, StrictSub c p → sizeOf c < sizeOf p) ∧
    WellFounded (fun b a : Value × List String => Recurses a b) := by
  refine ⟨?_, ?_, ?_, fun a b h => Recurses_sub h, ?_, fun c p h => StrictSub_sizeOf h,
    Recurses_wf⟩
  · intro v p
    cases h : Lookup v p with
    | panic => exact Or.inl rfl
    | ret r => exact Or.inr ⟨r.1, r.2, rfl⟩
  · intro t x
    exact ⟨Relation.TransGen.single (Value.Child.target t x),
      Relation.TransGen.single (Value.Child.dyn x)⟩
  · intro v parent w pre s q err hpre hfail hagg
    rw [Lookup_resolves hpre, Lookup_cons_agg q hfail hagg]
  · intro v w e s q err i hfail hagg hidx
    have hrec : Recurses (v, [] ++ s :: q) (e.Interface, s :: q) :=
      Recurses.call (Resolves.nil v) hfail hagg hidx
    exact ⟨hrec, Recurses_sub hrec⟩
end GoLookup
